import Mathlib

/-!
Verification development for the TrueNorth civic-data pipeline
(discoverer / extractor / chunker / pipeline orchestrator / merge step).

The JavaScript sources are shallowly embedded over `List Char` (JS strings
are modelled as their character sequences; all inputs considered here are
ASCII, where JS UTF-16 lengths coincide with character counts).  Regular
expressions of the shape `lit1.*lit2.*…` (flags `i`, `g`) are modelled by an
explicit greedy matcher in which `.` matches any character except a line
terminator.  Fractional comparisons (`x / y > 0.3`) are modelled by exact
cross-multiplied integer comparisons, which agree with the IEEE comparisons
on the values reached by the code.  Asynchronous loops with a wall-clock
timeout are modelled with an explicit fuel parameter (one unit per loop
iteration; exhausted fuel is the timeout firing).  The stable V8 array sort
with the comparator `(a, b) => density(b) - density(a)` is modelled by the
stable insertion sort ordered by the exact rational density comparison.
-/

set_option maxRecDepth 100000

namespace TrueNorth

/-- Characters of a JavaScript string. -/
abbrev Str := List Char

/-- Coerce a Lean string literal into the `List Char` model. -/
def str (s : String) : Str := s.toList

/-- Whitespace class of the JS regexes (`\s`) restricted to the ASCII range:
space, tab, line feed, carriage return, vertical tab, form feed. -/
def isWsChar (c : Char) : Bool :=
  c == ' ' || c == '\t' || c == '\n' || c == '\r' || c == Char.ofNat 11 || c == Char.ofNat 12

/-- Line terminators (the characters a JS `.` does not match). -/
def isNlChar (c : Char) : Bool :=
  c == '\n' || c == '\r'

/-- Case-sensitive prefix test (first argument: the string, second: the prefix). -/
def startsWithStr : Str → Str → Bool
  | _, [] => true
  | [], _ :: _ => false
  | c :: s, p :: ps => (c == p) && startsWithStr s ps

/-- Helper for `jsIncludes`: does the pattern occur in the string? -/
def includesAux (sub : Str) : Str → Bool
  | [] => startsWithStr [] sub
  | s@(_ :: rest) => startsWithStr s sub || includesAux sub rest

/-- Model of JS `s.includes(sub)` (case-sensitive substring containment). -/
def jsIncludes (s sub : Str) : Bool := includesAux sub s

/-- Model of JS `String.prototype.toLowerCase` (ASCII inputs). -/
def toLowerStr (s : Str) : Str := s.map Char.toLower

/-- Case-insensitive prefix test (used by the `i`-flagged regexes). -/
def lcStartsWith : Str → Str → Bool
  | _, [] => true
  | [], _ :: _ => false
  | c :: s, p :: ps => (c.toLower == p.toLower) && lcStartsWith s ps

/-- Model of JS `String.prototype.trim`. -/
def jsTrim (s : Str) : Str :=
  ((s.dropWhile isWsChar).reverse.dropWhile isWsChar).reverse

/-- Cons a character onto the first piece of a split result. -/
def consHead (c : Char) : List Str → List Str
  | [] => [[c]]
  | p :: ps => (c :: p) :: ps

/-- Fueled worker for `splitWsRuns`; one fuel unit per character consumed. -/
def splitWsRunsGo : Nat → Str → List Str
  | 0, s => [s]
  | _ + 1, [] => [[]]
  | fuel + 1, c :: rest =>
    if isWsChar c then [] :: splitWsRunsGo fuel (rest.dropWhile isWsChar)
    else consHead c (splitWsRunsGo fuel rest)

/-- Model of JS `s.split(/\s+/)`: maximal whitespace runs separate the pieces;
a leading or trailing run produces an empty piece, as in JS. -/
def splitWsRuns (s : Str) : List Str := splitWsRunsGo s.length s

/-- Split on single delimiter characters, dropping the delimiters and keeping
empty pieces (the splitting core shared by the sentence and word splits). -/
def splitOnChar (p : Char → Bool) : Str → List Str
  | [] => [[]]
  | c :: rest => if p c then [] :: splitOnChar p rest else consHead c (splitOnChar p rest)

/-- Model of JS `s.split(/[.!?]+/)` followed by dropping blank pieces (splitting
on each single delimiter and dropping blanks yields the same surviving pieces
as splitting on delimiter runs). -/
def splitSentDelims (s : Str) : List Str :=
  splitOnChar (fun c => c == '.' || c == '!' || c == '?') s

/-- Greedy scanner for a `.*lit…` tail of a regex: walk forward over the text
(`pos` characters consumed so far by `.*`, none of them line terminators),
trying to match `l` followed by the remaining pattern via `inner` at each
position, and keep the extent of the farthest success (`best`) — this realizes
the greedy `.*` with backtracking.  A line terminator stops the walk (a JS `.`
does not match it).  Returns the total number of characters consumed. -/
def scanStar (l : Str) (inner : Str → Option Nat) : Nat → Option Nat → Str → Option Nat
  | pos, best, [] =>
    if lcStartsWith [] l then
      match inner [] with
      | some n => some (pos + (l.length + n))
      | none => best
    else best
  | pos, best, c :: rest =>
    let newBest :=
      if lcStartsWith (c :: rest) l then
        match inner ((c :: rest).drop l.length) with
        | some n => some (pos + (l.length + n))
        | none => best
      else best
    if isNlChar c then newBest
    else scanStar l inner (pos + 1) newBest rest

/-- Consumed length of the greedy match of `.*l₁.*l₂…` at the current position. -/
def starsExtent : List Str → Str → Option Nat
  | [], _ => some 0
  | l :: ls, s => scanStar l (starsExtent ls) 0 none s

/-- Consumed length of the greedy match of the pattern `l₁.*l₂.*…` anchored at
the start of `s` (case-insensitive), if any. -/
def patExtent (lits : List Str) (s : Str) : Option Nat :=
  match lits with
  | [] => some 0
  | l :: ls =>
    if lcStartsWith s l then (starsExtent ls (s.drop l.length)).map (fun n => l.length + n)
    else none

/-- Model of JS `/l₁.*l₂.*…/i.test(s)`. -/
def regexTest (lits : List Str) : Str → Bool
  | [] => (patExtent lits []).isSome
  | s@(_ :: rest) => (patExtent lits s).isSome || regexTest lits rest

/-- Fueled worker for `replaceAll`; one fuel unit per step. -/
def replaceAllGo (lits : List Str) : Nat → Str → Str
  | 0, s => s
  | _ + 1, [] => []
  | fuel + 1, s@(c :: rest) =>
    match patExtent lits s with
    | some e => replaceAllGo lits fuel (s.drop e)
    | none => c :: replaceAllGo lits fuel rest

/-- Model of JS `s.replace(/l₁.*l₂.*…/gi, '')`: repeatedly delete the leftmost
greedy match and continue scanning after it. -/
def replaceAll (lits : List Str) (s : Str) : Str := replaceAllGo lits s.length s

/-- Fueled worker for `collapseWs`. -/
def collapseWsGo : Nat → Str → Str
  | 0, s => s
  | _ + 1, [] => []
  | fuel + 1, c :: rest =>
    if isWsChar c then ' ' :: collapseWsGo fuel (rest.dropWhile isWsChar)
    else c :: collapseWsGo fuel rest

/-- Model of JS `s.replace(/\s+/g, ' ')`. -/
def collapseWs (s : Str) : Str := collapseWsGo s.length s

/-- Position of the last `'\n'` inside the maximal leading whitespace run of
the string, used for the greedy `\s*` of the paragraph separator `/\n\s*\n/`. -/
def lastNlInRun : Str → Option Nat
  | [] => none
  | c :: rest =>
    if isWsChar c then
      match lastNlInRun rest with
      | some n => some (n + 1)
      | none => if c == '\n' then some 0 else none
    else none

/-- Fueled worker for `splitParas`. -/
def splitParasGo : Nat → Str → List Str
  | 0, s => [s]
  | _ + 1, [] => [[]]
  | fuel + 1, c :: rest =>
    if c == '\n' then
      match lastNlInRun rest with
      | some n => [] :: splitParasGo fuel (rest.drop (n + 1))
      | none => consHead c (splitParasGo fuel rest)
    else consHead c (splitParasGo fuel rest)

/-- Model of JS `s.split(/\n\s*\n/)` (greedy leftmost separator matches). -/
def splitParas (s : Str) : List Str := splitParasGo s.length s

/-- Model of JS `Array.prototype.join(sep)`. -/
def joinSep (sep : Str) : List Str → Str
  | [] => []
  | [p] => p
  | p :: ps => p ++ sep ++ joinSep sep ps

/-! Chunker (source: `hasCommunitySignal`, `isProceduralBoilerplate`,
`isLegalFinancialCeremonial`, `filterHighSignalParagraphs`,
`removeLowSignalContent`, `splitIntoChunks`, `calculateKeywordDensity`,
`chunkDocuments`). -/

/-- Keyword list of `hasCommunitySignal` (verbatim, including the duplicated
entry `residents`). -/
def communityKeywords : List Str :=
  [str "residents", str "community", str "neighbourhood", str "neighborhood",
   str "public concerns", str "complaints", str "feedback", str "issues",
   str "residents", str "citizens", str "public input", str "stakeholder",
   str "engagement"]

/-- Source `hasCommunitySignal`: at least two sentences longer than 10
characters (after trim) contain a community-signal keyword. -/
def hasCommunitySignal (text : Str) : Bool :=
  let sentences := (splitSentDelims text).filter (fun s => decide (10 < (jsTrim s).length))
  let signalSentences := sentences.filter (fun sentence =>
    communityKeywords.any (fun keyword => jsIncludes (toLowerStr sentence) (toLowerStr keyword)))
  decide (2 ≤ signalSentences.length)

/-- Boilerplate regex patterns of `isProceduralBoilerplate`, each
`lit1.*lit2` with the `i` flag. -/
def boilerplatePatterns : List (List Str) :=
  [[str "attendance", str "roll"], [str "present", str "vote"],
   [str "motion", str "carried"], [str "seconded", str "motion"],
   [str "unanimously", str "approved"], [str "roll", str "call"],
   [str "voting", str "record"], [str "ayes", str "nays"],
   [str "call", str "question"], [str "vote", str "result"],
   [str "carried", str "unanimously"], [str "resolved", str "that"]]

/-- Source `isProceduralBoilerplate`: the number of matching patterns times 50
divided by the text length must exceed 0.3.  The JS float comparison
`(matches * 50) / text.length > 0.3` is modelled by the exact cross-multiplied
comparison `3 * length < 10 * (matches * 50)`; for `length = 0` JS compares
`NaN > 0.3` (false) and here `0 < 0` is also false, since no nonempty literal
pattern matches the empty string. -/
def isProceduralBoilerplate (text : Str) : Bool :=
  let boilerplateMatches := boilerplatePatterns.filter (fun pattern => regexTest pattern text)
  decide (3 * text.length < 10 * (boilerplateMatches.length * 50))

/-- Exclude patterns of `isLegalFinancialCeremonial`. -/
def legalPatterns : List (List Str) :=
  [[str "bylaw", str "amendment"], [str "municipal", str "code"],
   [str "zoning", str "bylaw"], [str "financial", str "statement"],
   [str "budget", str "allocation"], [str "tax", str "levy"],
   [str "ceremonial", str "opening"], [str "opening", str "prayers"],
   [str "national", str "anthem"], [str "oath", str "office"],
   [str "swearing", str "ceremony"], [str "legal", str "opinion"],
   [str "contract", str "award"], [str "tender", str "process"]]

/-- Source `isLegalFinancialCeremonial`. -/
def isLegalFinancialCeremonial (text : Str) : Bool :=
  legalPatterns.any (fun pattern => regexTest pattern text)

/-- Signal phrase patterns of `filterHighSignalParagraphs` (each compiled as a
case-insensitive regex `lit1.*lit2`). -/
def highSignalPatterns : List (List Str) :=
  [[str "lack", str "service"], [str "absence", str "service"],
   [str "public", str "complaint"], [str "resident", str "feedback"],
   [str "infrastructure", str "problem"], [str "transit", str "issue"],
   [str "housing", str "concern"], [str "healthcare", str "problem"],
   [str "safety", str "issue"], [str "utility", str "problem"],
   [str "community", str "engagement"], [str "stakeholder", str "input"],
   [str "public", str "consultation"], [str "community", str "meeting"],
   [str "resident", str "meeting"], [str "neighbourhood", str "concern"],
   [str "neighborhood", str "concern"]]

/-- Source `filterHighSignalParagraphs`: keep the blank-line-delimited
paragraphs longer than 50 characters (after trim) that match a signal phrase,
re-joined with `"\n\n"`. -/
def filterHighSignalParagraphs (text : Str) : Str :=
  let paragraphs := (splitParas text).filter (fun p => decide (50 < (jsTrim p).length))
  let highSignalParagraphs := paragraphs.filter (fun paragraph =>
    highSignalPatterns.any (fun keyword => regexTest keyword paragraph))
  joinSep (str "\n\n") highSignalParagraphs

/-- Replacement patterns of `removeLowSignalContent`, in source order. -/
def removeLowSignalPatterns : List (List Str) :=
  [[str "speaker", str "roll", str "call"],
   [str "motion", str "seconded", str "carried"],
   [str "resolved", str "unanimously"],
   [str "ayes", str "nays", str "motion"],
   [str "vote", str "recorded", str "follows"],
   [str "disclaimer", str "liability"],
   [str "terms", str "conditions"],
   [str "privacy", str "policy"],
   [str "copyright", str "notice"],
   [str "meeting", str "called", str "order"],
   [str "adjournment", str "meeting"]]

/-- Source `removeLowSignalContent`: delete the matches of each pattern in
order, collapse whitespace runs to single spaces, and trim. -/
def removeLowSignalContent (text : Str) : Str :=
  jsTrim (collapseWs (removeLowSignalPatterns.foldl (fun t pattern => replaceAll pattern t) text))

/-- Sentences of `splitIntoChunks`: split on `[.!?]+` and keep the pieces with
nonempty trim. -/
def splitSentences (text : Str) : List Str :=
  (splitSentDelims text).filter (fun s => decide (0 < (jsTrim s).length))

/-- Accumulation loop of `splitIntoChunks`: `currentChunk` grows by
`" " ++ sentence ++ "."` while the test chunk stays within `maxChars`;
otherwise the current chunk is flushed and restarted from the sentence. -/
def buildChunks (maxChars : Nat) : List Str → Str → List Str
  | [], currentChunk => if currentChunk.isEmpty then [] else [jsTrim currentChunk]
  | sentence :: rest, currentChunk =>
    let t := jsTrim sentence
    if t.isEmpty then buildChunks maxChars rest currentChunk
    else
      let testChunk := if currentChunk.isEmpty then t ++ [ '.' ]
        else currentChunk ++ [' '] ++ t ++ [ '.' ]
      if testChunk.length ≤ maxChars then buildChunks maxChars rest testChunk
      else if currentChunk.isEmpty then buildChunks maxChars rest (t ++ [ '.' ])
      else jsTrim currentChunk :: buildChunks maxChars rest (t ++ [ '.' ])

/-- Source `splitIntoChunks` (default `maxChars = 2400`); chunks of length at
most 100 are discarded at the end. -/
def splitIntoChunks (text : Str) (maxChars : Nat := 2400) : List Str :=
  (buildChunks maxChars (splitSentences text) []).filter (fun chunk => decide (100 < chunk.length))

/-- Keyword list of `calculateKeywordDensity` (verbatim, including the
duplicated entry `residents`). -/
def densityKeywords : List Str :=
  [str "residents", str "community", str "neighbourhood", str "neighborhood",
   str "public concerns", str "complaints", str "feedback", str "issues",
   str "residents", str "citizens", str "public input", str "stakeholder",
   str "engagement", str "lack", str "absence", str "problem", str "concern",
   str "issue"]

/-- Keyword-containing word count and total word count of
`calculateKeywordDensity` (the words of the lower-cased text, split on
whitespace runs). -/
def densityCounts (text : Str) : Nat × Nat :=
  let words := splitWsRuns (toLowerStr text)
  (words.countP (fun word => densityKeywords.any (fun keyword => jsIncludes word keyword)),
   words.length)

/-- Source `calculateKeywordDensity`: fraction of words containing a signal
keyword, as an exact rational. -/
def calculateKeywordDensity (text : Str) : ℚ :=
  ((densityCounts text).1 : ℚ) / ((densityCounts text).2 : ℚ)

/-- Record for one element of `chunkDocuments`' output. -/
structure TextChunk where
  municipality : Str
  source_url : Str
  title : Str
  chunk_index : Nat
  total_chunks : Nat
  text : Str
deriving DecidableEq, Repr

/-- Record for one extracted document (fields created by the Extractor). -/
structure ExtractedDoc where
  municipality : Str
  source_url : Str
  content_type : Str
  title : Str
  date_detected : Str
  raw_text : Str
deriving DecidableEq, Repr

/-- Municipality record (`{ name, website }` as used by the pipeline). -/
structure City where
  name : Str
  website : Str
deriving DecidableEq, Repr

/-- Chunk-sorting order of `chunkDocuments`: the comparator
`(a, b) => calculateKeywordDensity(b.text) - calculateKeywordDensity(a.text)`
orders `a` before `b` when `density(b) ≤ density(a)`.  The density comparison
is expressed by exact cross-multiplication over ℕ (total word counts are
positive, so this coincides with the rational comparison). -/
def chunkBefore (a b : TextChunk) : Prop :=
  (densityCounts b.text).1 * (densityCounts a.text).2 ≤
    (densityCounts a.text).1 * (densityCounts b.text).2

instance : DecidableRel chunkBefore := fun _ _ => Nat.decLe _ _

/-- Numbering loop of `chunkDocuments`' step 3: chunk `i` (0-based) becomes a
record with `chunk_index = i + 1` and `total_chunks` the chunk count. -/
def numberChunks (municipality source_url title : Str) (total : Nat) : Nat → List Str → List TextChunk
  | _, [] => []
  | i, c :: cs =>
    ⟨municipality, source_url, title, i, total, c⟩ :: numberChunks municipality source_url title total (i + 1) cs

/-- Text surviving the content-narrowing of `chunkDocuments` step 2: the
high-signal paragraphs, or — when empty or shorter than 300 characters — the
low-signal-stripped original text. -/
def filteredTextOf (doc : ExtractedDoc) : Str :=
  let ft0 := filterHighSignalParagraphs doc.raw_text
  if ft0.length < 300 then removeLowSignalContent doc.raw_text else ft0

/-- Chunks contributed by a single document in `chunkDocuments` (steps 1-3):
document-level filters, content narrowing, the final 300-character gate, then
splitting and numbering. -/
def docChunksOf (city : City) (doc : ExtractedDoc) : List TextChunk :=
  if !hasCommunitySignal doc.raw_text then []
  else if isProceduralBoilerplate doc.raw_text then []
  else if isLegalFinancialCeremonial doc.raw_text then []
  else
    let ft := filteredTextOf doc
    if ft.length < 300 then []
    else
      let chunks := splitIntoChunks ft 2400
      numberChunks city.name doc.source_url doc.title chunks.length 1 chunks

/-- Accumulated chunk list of `chunkDocuments` before the per-city cap. -/
def allChunksOf (city : City) (docs : List ExtractedDoc) : List TextChunk :=
  docs.flatMap (docChunksOf city)

/-- Source `chunkDocuments`: accumulate each document's chunks, then when more
than 30 accumulate, sort by keyword density (highest first, stable) and keep
the top 30 (`allChunks.splice(30)`). -/
def chunkDocuments (city : City) (extractedDocuments : List ExtractedDoc) : List TextChunk :=
  let allChunks := allChunksOf city extractedDocuments
  if 30 < allChunks.length then (List.insertionSort chunkBefore allChunks).take 30
  else allChunks

/-! Link Discoverer (source: `getCategory`, `isRelevant`,
`discoverRelevantPages`). -/

/-- Source constant `RELEVANT_KEYWORDS`. -/
def RELEVANT_KEYWORDS : List Str :=
  [str "council", str "city-hall", str "government", str "meetings",
   str "agendas", str "minutes", str "committees", str "consultation",
   str "have-your-say"]

/-- Source constant `SKIP_KEYWORDS`. -/
def SKIP_KEYWORDS : List Str :=
  [str "tourism", str "recreation", str "business", str "events",
   str "directory", str "services"]

/-- Source `getCategory`: first matching keyword on the lower-cased
`url ++ " " ++ anchorText`, checked in the order council, minutes, agenda,
committee, consultation/have-your-say; default `other`. -/
def getCategory (url anchorText : Str) : Str :=
  let text := toLowerStr (url ++ [' '] ++ anchorText)
  if jsIncludes text (str "council") then str "council"
  else if jsIncludes text (str "minutes") then str "minutes"
  else if jsIncludes text (str "agenda") then str "agenda"
  else if jsIncludes text (str "committee") then str "committee"
  else if jsIncludes text (str "consultation") || jsIncludes text (str "have-your-say") then
    str "consultation"
  else str "other"

/-- Source `isRelevant`: the lower-cased `url ++ " " ++ anchorText` contains a
relevance keyword and no skip keyword. -/
def isRelevant (url anchorText : Str) : Bool :=
  let text := toLowerStr (url ++ [' '] ++ anchorText)
  (RELEVANT_KEYWORDS.any (fun keyword => jsIncludes text keyword)) &&
    !(SKIP_KEYWORDS.any (fun keyword => jsIncludes text keyword))

/-- Output record of the Discoverer. -/
structure DiscoveredLink where
  municipality : Str
  category : Str
  url : Str
deriving DecidableEq, Repr

/-- Abstract environment of one crawl: fetching a page yields its anchor list
(`href`, anchor text) or fails; `robotsAllowed` models the parsed robots
policy (with the fail-open default when `robots.txt` is unavailable);
`normalize` and `sameDomain` model the URL library calls `normalizeUrl` and
`isSameDomain` against the base URL. -/
structure CrawlEnv where
  web : Str → Option (List (Str × Str))
  robotsAllowed : Str → Bool
  normalize : Str → Str → Option Str
  sameDomain : Str → Bool

/-- Per-page link scan of `discoverRelevantPages` (the `$('a[href]').each`
loop): relevant same-domain links are appended to the results, unvisited
same-domain links within depth are appended to the queue. -/
def processLinks (municipality : Str) (env : CrawlEnv) (pageUrl : Str) (depth : Nat)
    (links : List (Str × Str)) (visited : List Str)
    (results : List DiscoveredLink) (queue : List (Str × Nat)) :
    List DiscoveredLink × List (Str × Nat) :=
  links.foldl (fun acc link =>
    match env.normalize pageUrl link.1 with
    | none => acc
    | some normalizedUrl =>
      if env.sameDomain normalizedUrl then
        (if isRelevant normalizedUrl link.2 then
            acc.1 ++ [⟨municipality, getCategory normalizedUrl link.2, normalizedUrl⟩]
          else acc.1,
         if normalizedUrl ∉ visited ∧ depth < 3 then acc.2 ++ [(normalizedUrl, depth + 1)]
         else acc.2)
      else acc) (results, queue)

/-- Crawl loop of `discoverRelevantPages`, one fuel unit per dequeued entry;
exhausted fuel models the 3-minute timeout firing, which stops the loop with
the results accumulated so far. -/
def crawlLoop (municipality : Str) (env : CrawlEnv) :
    Nat → List (Str × Nat) → List Str → List DiscoveredLink → List DiscoveredLink
  | 0, _, _, results => results
  | _ + 1, [], _, results => results
  | fuel + 1, (url, depth) :: queue, visited, results =>
    if url ∈ visited ∨ 3 < depth then crawlLoop municipality env fuel queue visited results
    else
      let visited' := url :: visited
      if !env.robotsAllowed url then crawlLoop municipality env fuel queue visited' results
      else
        match env.web url with
        | none => crawlLoop municipality env fuel queue visited' results
        | some links =>
          let rq := processLinks municipality env url depth links visited' results queue
          crawlLoop municipality env fuel rq.2 visited' rq.1

/-- Worker for `uniqueResults`: keep an item iff `findIndex` of its url equals
its own index. -/
def uniqueGo (rs : List DiscoveredLink) : Nat → List DiscoveredLink → List DiscoveredLink
  | _, [] => []
  | i, r :: rest =>
    if rs.findIdx (fun t => t.url == r.url) == i then r :: uniqueGo rs (i + 1) rest
    else uniqueGo rs (i + 1) rest

/-- Deduplication filter of `discoverRelevantPages`:
`results.filter((item, index, self) => index === self.findIndex(t => t.url === item.url))`. -/
def uniqueResults (rs : List DiscoveredLink) : List DiscoveredLink :=
  uniqueGo rs 0 rs

/-- Source `discoverRelevantPages`.  The promise executor resolves in every
path and never rejects: with no base url it returns `[]`; a top-level error in
`crawl` is caught and resolves `[]` (`setupError`); the timeout path and the
normal-completion path both resolve the deduplicated results. -/
def discoverRelevantPages (city : City) (env : CrawlEnv) (fuel : Nat)
    (setupError : Bool) : List DiscoveredLink :=
  if city.website.isEmpty then []
  else if setupError then []
  else uniqueResults (crawlLoop city.name env fuel [(city.website, 0)] [] [])

/-! Content Extractor (source: `isQualityContent`, `extractDocuments`). -/

/-- Source constant `commonWords` of `isQualityContent`. -/
def commonWords : List Str :=
  [str "home", str "about", str "contact", str "menu", str "navigation",
   str "footer", str "copyright"]

/-- Source `isQualityContent`: at least 300 characters, and the fraction of
whitespace-split words that are common chrome words must not exceed 0.3
(`commonWordCount > words.length * 0.3`, modelled by the exact comparison
`3 * words.length < 10 * commonWordCount`). -/
def isQualityContent (text : Str) : Bool :=
  if text.length < 300 then false
  else
    let words := splitWsRuns text
    let commonWordCount := words.countP (fun word => decide (toLowerStr word ∈ commonWords))
    if 3 * words.length < 10 * commonWordCount then false else true

/-- Outcome of processing one discovered URL inside `extractDocuments`:
blocked by robots (skipped silently), a thrown fetch/parse failure, or a
fetched page with its extracted title, raw text and content type. -/
inductive FetchOutcome
  | blocked
  | failure
  | page (title raw contentType : Str)
deriving DecidableEq, Repr

/-- Predicate picking out the thrown fetch/parse failures. -/
def isFetchFailure : FetchOutcome → Bool
  | .failure => true
  | _ => false

/-- Extraction loop of `extractDocuments` over the discovered URLs, carrying
`consecutiveFailures` (threshold 5, `break` on reaching it): robots blocks are
skipped without counting, thrown failures and quality rejections increment the
counter, a successfully extracted quality document resets it to 0. -/
def extractGo (municipality today : Str) : List (Str × FetchOutcome) → Nat → List ExtractedDoc
  | [], _ => []
  | (url, outcome) :: rest, consecutiveFailures =>
    match outcome with
    | .blocked => extractGo municipality today rest consecutiveFailures
    | .failure =>
      if 5 ≤ consecutiveFailures + 1 then []
      else extractGo municipality today rest (consecutiveFailures + 1)
    | .page title raw contentType =>
      if isQualityContent raw then
        ⟨municipality, url, contentType, title, today, raw⟩ :: extractGo municipality today rest 0
      else if 5 ≤ consecutiveFailures + 1 then []
      else extractGo municipality today rest (consecutiveFailures + 1)

/-- Source `extractDocuments` (per-URL network behaviour abstracted into the
`FetchOutcome` of each discovered URL; `today` models
`new Date().toISOString().split('T')[0]`). -/
def extractDocuments (city : City) (today : Str) (pages : List (Str × FetchOutcome)) :
    List ExtractedDoc :=
  if pages.isEmpty then [] else extractGo city.name today pages 0

/-! Pipeline Orchestrator (source: `processCity`, `runFullPipeline`). -/

/-- Concern record returned by the analysis stage. -/
structure Concern where
  description : Str
  category : Str
  location : Str
  severity : Str
  summary : Str
deriving DecidableEq, Repr

/-- Outcome of awaiting one pipeline stage: a value, or a thrown exception
with its message. -/
inductive StageOutcome (α : Type)
  | ok (val : α)
  | exn (msg : Str)
deriving DecidableEq

/-- Stage outcomes of one municipality's run, injected into `processCity`
(each stage is awaited inside the single try/catch). -/
structure CityOutcomes where
  discovery : StageOutcome (List DiscoveredLink)
  extraction : StageOutcome (List ExtractedDoc)
  chunking : StageOutcome (List TextChunk)
  analysis : StageOutcome (List Concern)

/-- Status field of a per-municipality result record. -/
inductive CityStatus
  | completed
  | skipped
  | error
deriving DecidableEq, Repr

/-- Per-municipality result record of `processCity` (fields absent in a given
JS return value are `none` / `[]`). -/
structure CityResult where
  city : Str
  status : CityStatus
  reason : Option Str
  errorMsg : Option Str
  concerns : List Concern
deriving DecidableEq

/-- Source `processCity`: four sequential stages, each empty result an early
exit with status `skipped` and a reason code; a thrown exception at any stage
is caught and produces status `error` with the message. -/
def processCity (cityName : Str) (o : CityOutcomes) : CityResult :=
  match o.discovery with
  | .exn m => ⟨cityName, .error, none, some m, []⟩
  | .ok discoveredUrls =>
    if discoveredUrls.length = 0 then
      ⟨cityName, .skipped, some (str "no_urls_discovered"), none, []⟩
    else match o.extraction with
      | .exn m => ⟨cityName, .error, none, some m, []⟩
      | .ok documents =>
        if documents.length = 0 then
          ⟨cityName, .skipped, some (str "no_documents_extracted"), none, []⟩
        else match o.chunking with
          | .exn m => ⟨cityName, .error, none, some m, []⟩
          | .ok chunks =>
            if chunks.length = 0 then
              ⟨cityName, .skipped, some (str "no_chunks_created"), none, []⟩
            else match o.analysis with
              | .exn m => ⟨cityName, .error, none, some m, []⟩
              | .ok concerns => ⟨cityName, .completed, none, none, concerns⟩

/-- Source `runFullPipeline` loop body: every city is processed in order with
`processCity` and its result appended, regardless of the preceding results. -/
def runFullPipeline (cities : List (Str × CityOutcomes)) : List CityResult :=
  cities.map (fun c => processCity c.1 c.2)

/-! Merge/summarization variant (source: `mergeIssues` of the analysis
script). -/

/-- Issue record consumed by `mergeIssues` (the fields its code reads). -/
structure Issue where
  service : Str
  location : Str
  summary : Str
deriving DecidableEq, Repr

/-- Model of the JS idiom `x || 'unknown'` on string fields (the empty string
is falsy). -/
def orUnknown (s : Str) : Str := if s.isEmpty then str "unknown" else s

/-- Deduplication key of `mergeIssues`:
`${issue.service || 'unknown'}-${issue.location || 'unknown'}`. -/
def issueKey (i : Issue) : Str := orUnknown i.service ++ [ '-' ] ++ orUnknown i.location

/-- Source similar-issue filter of `mergeIssues`, verbatim: note that the
second conjunct compares `i.location` with itself. -/
def similarIssues (issues : List Issue) (issue : Issue) : List Issue :=
  issues.filter (fun i =>
    decide (orUnknown i.service = orUnknown issue.service) &&
      decide (orUnknown i.location = orUnknown i.location))

/-- Similar-issue filter written from the spec's words for the observed
behaviour: the grouping is determined by the service field alone. -/
def similarIssuesByServiceOnly (issues : List Issue) (issue : Issue) : List Issue :=
  issues.filter (fun i => decide (orUnknown i.service = orUnknown issue.service))

/-- Iteration of `mergeIssues` over the issue list with its `seen` key set. -/
def mergeIssuesGo (issues : List Issue) : List Issue → List Str → List Issue
  | [], _ => []
  | issue :: rest, seen =>
    let key := issueKey issue
    if key ∈ seen then mergeIssuesGo issues rest seen
    else
      let similar := similarIssues issues issue
      let combinedSummary := (joinSep [' '] (similar.map (fun i => i.summary))).take 1000
      { issue with summary := combinedSummary } :: mergeIssuesGo issues rest (key :: seen)

/-- Source `mergeIssues`. -/
def mergeIssues (issues : List Issue) : List Issue := mergeIssuesGo issues issues []

/-- Variant of `mergeIssuesGo` using the service-only similar filter. -/
def mergeIssuesByServiceOnlyGo (issues : List Issue) : List Issue → List Str → List Issue
  | [], _ => []
  | issue :: rest, seen =>
    let key := issueKey issue
    if key ∈ seen then mergeIssuesByServiceOnlyGo issues rest seen
    else
      let similar := similarIssuesByServiceOnly issues issue
      let combinedSummary := (joinSep [' '] (similar.map (fun i => i.summary))).take 1000
      { issue with summary := combinedSummary } :: mergeIssuesByServiceOnlyGo issues rest (key :: seen)

/-- Merge step as the spec describes the effective behaviour: summaries are
grouped by service alone. -/
def mergeIssuesByServiceOnly (issues : List Issue) : List Issue :=
  mergeIssuesByServiceOnlyGo issues issues []

/-! Concrete inputs used by witnesses and counterexamples. -/

/-- Space-separated repetition of the word `citizens` (a community-signal and
density keyword). -/
def wordsCitizens (n : Nat) : Str := joinSep [' '] (List.replicate n (str "citizens"))

/-- Whitespace-free keyword-dense sentence: the word `citizens` concatenated
19 times (152 characters). -/
def textA : Str := (List.replicate 19 (str "citizens")).flatten

/-- Whitespace-free keyword-free filler of `n` characters. -/
def zfill (n : Nat) : Str := List.replicate n 'z'

/-- A 305-character two-sentence document text that passes every document
filter and yields one 307-character chunk. -/
def rawMedium : Str := textA ++ str "." ++ textA

/-- Document built from `rawMedium`. -/
def docMedium : ExtractedDoc :=
  ⟨str "CityX", str "https://x/m", str "html", str "m", str "2026-10-11", rawMedium⟩

/-- Character alphabet of the `zdoc` document family. -/
def zalpha : List Char := ['c', 'i', 't', 'z', 'e', 'n', 's', '.']

/-- Prepend a string onto the first piece of a split result (the shape a
delimiter-free prefix takes in a character split). -/
def prependHead (u : Str) : List Str → List Str
  | [] => [u]
  | h :: t => (u ++ h) :: t

/-- Document text of the `zdoc` family: two keyword-dense sentences followed
by one keyword-free sentence of `n` characters. -/
def zraw (n : Nat) : Str := textA ++ str "." ++ textA ++ str "." ++ zfill n ++ str "."

/-- Parametric document: for `2092 ≤ n` it yields exactly two chunks, the
307-character keyword-dense chunk 1 and the `n + 1`-character keyword-free
chunk 2. -/
def zdoc (n : Nat) : ExtractedDoc :=
  ⟨str "CityX", str "https://x/d1", str "html", str "d1", str "2026-10-11", zraw n⟩

/-- Test municipality. -/
def cityX : City := ⟨str "CityX", str "https://x"⟩

/-- Text of the single chunk produced by `docMedium`, and of the first chunk
produced by every `zdoc n` with `419 ≤ n`. -/
def chunkTextM : Str := (textA ++ [ '.' ]) ++ [' '] ++ textA ++ [ '.' ]

/-- A 30-document batch producing 31 accumulated chunks, so the per-city cap
fires and drops exactly the lowest-density chunk (`zdoc 2092`'s chunk 2). -/
def docsX : List ExtractedDoc := zdoc 2092 :: List.replicate 29 docMedium

/-- A 31-document batch of single-chunk documents (31 accumulated chunks, all
of the same density). -/
def docsY : List ExtractedDoc := List.replicate 31 docMedium

/-- The 47-character procedural phrase of the spec's Scenario A. -/
def phraseC5 : Str := str "Motion carried unanimously. Roll call: present."

/-- The phrase repeated to exactly 1000 characters. -/
def textC5long : Str := (List.replicate 21 phraseC5).flatten ++ str "Motion carrie"

/-- The phrase repeated 10 times (470 characters). -/
def textC5short : Str := (List.replicate 10 phraseC5).flatten

/-- URL of the spec's Scenario C. -/
def urlC4 : Str := str "https://city.example/council/minutes-2024.pdf"

/-- Anchor text of the spec's Scenario C. -/
def anchorC4 : Str := str "2024 Council Minutes"

/-- A raw text below the 300-character quality floor. -/
def rawShort : Str := str "short"

/-- A 359-character raw text passing `isQualityContent`. -/
def rawQuality : Str := wordsCitizens 40

/-- Five quality-rejected pages followed by one good page; no fetch or parse
failure occurs anywhere in the list. -/
def pagesC7 : List (Str × FetchOutcome) :=
  [(str "https://x/1", .page (str "t1") rawShort (str "html")),
   (str "https://x/2", .page (str "t2") rawShort (str "html")),
   (str "https://x/3", .page (str "t3") rawShort (str "html")),
   (str "https://x/4", .page (str "t4") rawShort (str "html")),
   (str "https://x/5", .page (str "t5") rawShort (str "html")),
   (str "https://x/6", .page (str "good") rawQuality (str "html"))]

/-- The single chunk record produced by `docMedium`. -/
def chunkM : TextChunk :=
  ⟨str "CityX", str "https://x/m", str "m", 1, 1, chunkTextM⟩

/-- First (keyword-dense) chunk record of every `zdoc n` with `2092 ≤ n`. -/
def chD1 : TextChunk := ⟨str "CityX", str "https://x/d1", str "d1", 1, 2, chunkTextM⟩

/-- Second (keyword-free) chunk record of `zdoc n`. -/
def chD2 (n : Nat) : TextChunk :=
  ⟨str "CityX", str "https://x/d1", str "d1", 2, 2, zfill n ++ [ '.' ]⟩

/-- Largest trimmed-sentence length of a text, plus one for the appended
period: together with `maxChars` this bounds every chunk the splitter can
produce. -/
def maxSentencePlusOne (t : Str) : Nat :=
  ((splitSentences t).map (fun s => (jsTrim s).length + 1)).foldr max 0

/-- Document whose raw text is below the 300-character minimum. -/
def docShort : ExtractedDoc :=
  ⟨str "CityX", str "https://x/s", str "html", str "s", str "2026-10-11", rawShort⟩

/-- Stage outcomes whose discovery stage returned the empty list. -/
def emptyOutcomes : CityOutcomes := ⟨.ok [], .ok [], .ok [], .ok []⟩

/-- Crawl environment in which every fetch fails. -/
def envNone : CrawlEnv := ⟨fun _ => none, fun _ => true, fun _ _ => none, fun _ => false⟩

/-! Helper lemmas. -/

/-- Dropping a while-prefix never lengthens a list. -/
lemma dropWhile_length_le (p : Char → Bool) (l : Str) :
    (l.dropWhile p).length ≤ l.length :=
  (List.dropWhile_sublist p).length_le

/-- Trimming never lengthens a string. -/
lemma jsTrim_length_le (s : Str) : (jsTrim s).length ≤ s.length := by
  unfold jsTrim
  rw [List.length_reverse]
  calc ((s.dropWhile isWsChar).reverse.dropWhile isWsChar).length
      ≤ (s.dropWhile isWsChar).reverse.length := dropWhile_length_le _ _
    _ = (s.dropWhile isWsChar).length := List.length_reverse _
    _ ≤ s.length := dropWhile_length_le _ _

/-- Collapsing whitespace runs never lengthens a string. -/
lemma collapseWsGo_length_le : ∀ (fuel : Nat) (s : Str),
    (collapseWsGo fuel s).length ≤ s.length := by
  intro fuel
  induction fuel with
  | zero => intro s; simp [collapseWsGo]
  | succ n ih =>
    intro s
    cases s with
    | nil => simp [collapseWsGo]
    | cons c rest =>
      unfold collapseWsGo
      by_cases h : isWsChar c = true
      · rw [if_pos h]
        have h1 := ih (rest.dropWhile isWsChar)
        have h2 := dropWhile_length_le isWsChar rest
        simp only [List.length_cons]
        omega
      · rw [if_neg h]
        have h1 := ih rest
        simp only [List.length_cons]
        omega

/-- Deleting regex matches never lengthens a string. -/
lemma replaceAllGo_length_le (lits : List Str) : ∀ (fuel : Nat) (s : Str),
    (replaceAllGo lits fuel s).length ≤ s.length := by
  intro fuel
  induction fuel with
  | zero => intro s; simp [replaceAllGo]
  | succ n ih =>
    intro s
    cases s with
    | nil => simp [replaceAllGo]
    | cons c rest =>
      cases hpe : patExtent lits (c :: rest) with
      | some e =>
        have hgoal : replaceAllGo lits (n + 1) (c :: rest) =
            replaceAllGo lits n ((c :: rest).drop e) := by
          simp only [replaceAllGo, hpe]
        rw [hgoal]
        have h1 := ih ((c :: rest).drop e)
        have h2 : ((c :: rest).drop e).length ≤ (c :: rest).length := by
          rw [List.length_drop]; omega
        omega
      | none =>
        have hgoal : replaceAllGo lits (n + 1) (c :: rest) =
            c :: replaceAllGo lits n rest := by
          simp only [replaceAllGo, hpe]
        rw [hgoal]
        have h1 := ih rest
        simp only [List.length_cons]
        omega

/-- The low-signal stripping pass never lengthens a string. -/
lemma removeLowSignalContent_length_le (t : Str) :
    (removeLowSignalContent t).length ≤ t.length := by
  unfold removeLowSignalContent
  have hfold : ∀ (pats : List (List Str)) (u : Str),
      (pats.foldl (fun t pattern => replaceAll pattern t) u).length ≤ u.length := by
    intro pats
    induction pats with
    | nil => intro u; simp
    | cons p ps ih =>
      intro u
      simp only [List.foldl_cons]
      exact le_trans (ih (replaceAll p u)) (replaceAllGo_length_le p u.length u)
  exact le_trans (jsTrim_length_le _)
    (le_trans (collapseWsGo_length_le _ _) (hfold removeLowSignalPatterns t))

/-- Character budget of a paragraph list: total text plus two characters per
separator. -/
def sumParas (ps : List Str) : Nat := (ps.map List.length).sum + 2 * (ps.length - 1)

/-- A position returned by `lastNlInRun` is inside the string. -/
lemma lastNlInRun_lt : ∀ (s : Str) (n : Nat), lastNlInRun s = some n → n < s.length := by
  intro s
  induction s with
  | nil => intro n h; simp [lastNlInRun] at h
  | cons c rest ih =>
    intro n h
    unfold lastNlInRun at h
    by_cases hw : isWsChar c = true
    · rw [if_pos hw] at h
      cases hr : lastNlInRun rest with
      | some m =>
        rw [hr] at h
        simp only [Option.some.injEq] at h
        have := ih m hr
        simp only [List.length_cons]
        omega
      | none =>
        rw [hr] at h
        by_cases hn : (c == '\n') = true
        · rw [if_pos hn] at h
          simp only [Option.some.injEq] at h
          simp only [List.length_cons]
          omega
        · rw [if_neg hn] at h; cases h
    · rw [if_neg hw] at h; cases h

/-- Paragraph splitting never returns the empty list. -/
lemma splitParasGo_ne_nil : ∀ (fuel : Nat) (s : Str), splitParasGo fuel s ≠ [] := by
  intro fuel
  induction fuel with
  | zero => intro s; simp [splitParasGo]
  | succ n ih =>
    intro s
    cases s with
    | nil => simp [splitParasGo]
    | cons c rest =>
      unfold splitParasGo
      by_cases hc : (c == '\n') = true
      · rw [if_pos hc]
        cases hr : lastNlInRun rest with
        | some m => simp
        | none =>
          cases h : splitParasGo n rest with
          | nil => exact absurd h (ih rest)
          | cons p ps => simp [consHead, h]
      · rw [if_neg hc]
        cases h : splitParasGo n rest with
        | nil => exact absurd h (ih rest)
        | cons p ps => simp [consHead, h]

/-- Consing a character onto the first piece adds one to the budget. -/
lemma sumParas_consHead (c : Char) (ps : List Str) :
    sumParas (consHead c ps) = sumParas ps + 1 := by
  cases ps with
  | nil => simp [consHead, sumParas]
  | cons p rest => simp [consHead, sumParas]; omega

/-- The paragraph pieces plus two characters per separator fit inside the
original string. -/
lemma splitParasGo_sum_le : ∀ (fuel : Nat) (s : Str),
    sumParas (splitParasGo fuel s) ≤ s.length := by
  intro fuel
  induction fuel with
  | zero => intro s; simp [splitParasGo, sumParas]
  | succ n ih =>
    intro s
    cases s with
    | nil => simp [splitParasGo, sumParas]
    | cons c rest =>
      unfold splitParasGo
      by_cases hc : (c == '\n') = true
      · rw [if_pos hc]
        cases hr : lastNlInRun rest with
        | some m =>
          have hm := lastNlInRun_lt rest m hr
          have hsum := ih (rest.drop (m + 1))
          have hlen : (rest.drop (m + 1)).length = rest.length - (m + 1) :=
            List.length_drop _ _
          cases hP : splitParasGo n (rest.drop (m + 1)) with
          | nil => exact absurd hP (splitParasGo_ne_nil n _)
          | cons p ps =>
            rw [hP] at hsum
            show sumParas ([] :: splitParasGo n (rest.drop (m + 1))) ≤ (c :: rest).length
            rw [hP]
            simp only [sumParas, List.map_cons, List.sum_cons, List.length_cons,
              List.length_nil, List.map_nil] at hsum ⊢
            omega
        | none =>
          have hsum := ih rest
          rw [sumParas_consHead]
          simp only [List.length_cons]
          omega
      · rw [if_neg hc]
        have hsum := ih rest
        rw [sumParas_consHead]
        simp only [List.length_cons]
        omega

/-- Sublists have smaller total length. -/
lemma sublist_sum_length_le {l₁ l₂ : List Str} (h : l₁.Sublist l₂) :
    (l₁.map List.length).sum ≤ (l₂.map List.length).sum := by
  induction h with
  | slnil => simp
  | cons a h ih => simp only [List.map_cons, List.sum_cons]; omega
  | cons₂ a h ih => simp only [List.map_cons, List.sum_cons]; omega

/-- Joined length of a paragraph list with the two-character separator. -/
lemma joinSep_length_two (sep : Str) (hsep : sep.length = 2) :
    ∀ ps : List Str, (joinSep sep ps).length = sumParas ps := by
  intro ps
  induction ps with
  | nil => simp [joinSep, sumParas]
  | cons p rest ih =>
    cases rest with
    | nil => simp [joinSep, sumParas]
    | cons q qs =>
      simp only [joinSep, List.length_append, hsep, ih]
      simp only [sumParas, List.map_cons, List.sum_cons, List.length_cons]
      omega

/-- The high-signal paragraph pass never lengthens a string. -/
lemma filterHighSignalParagraphs_length_le (t : Str) :
    (filterHighSignalParagraphs t).length ≤ t.length := by
  unfold filterHighSignalParagraphs
  have hsep : (str "\n\n").length = 2 := rfl
  rw [joinSep_length_two _ hsep]
  have hsub : ((splitParas t).filter (fun p => decide (50 < (jsTrim p).length))).filter
      (fun paragraph => highSignalPatterns.any (fun keyword => regexTest keyword paragraph))
      |>.Sublist (splitParas t) :=
    (List.filter_sublist _).trans (List.filter_sublist _)
  have h1 := sublist_sum_length_le hsub
  have h2 := hsub.length_le
  have h3 : sumParas (splitParas t) ≤ t.length := splitParasGo_sum_le t.length t
  simp only [sumParas] at h3 ⊢
  omega

/-- The narrowed text of a document never exceeds its raw text in length. -/
lemma filteredTextOf_length_le (doc : ExtractedDoc) :
    (filteredTextOf doc).length ≤ doc.raw_text.length := by
  unfold filteredTextOf
  by_cases h : (filterHighSignalParagraphs doc.raw_text).length < 300
  · rw [if_pos h]; exact removeLowSignalContent_length_le _
  · rw [if_neg h]; exact filterHighSignalParagraphs_length_le _

/-- A document whose raw text is under 300 characters contributes no chunks. -/
lemma docChunksOf_eq_nil_of_short (city : City) (doc : ExtractedDoc)
    (h : doc.raw_text.length < 300) : docChunksOf city doc = [] := by
  have hft : (filteredTextOf doc).length < 300 :=
    Nat.lt_of_le_of_lt (filteredTextOf_length_le doc) h
  unfold docChunksOf
  split_ifs with h1 h2 h3
  · rfl
  · rfl
  · rfl
  · show (if (filteredTextOf doc).length < 300 then ([] : List TextChunk)
      else numberChunks city.name doc.source_url doc.title
        (splitIntoChunks (filteredTextOf doc)).length 1
        (splitIntoChunks (filteredTextOf doc))) = []
    rw [if_pos hft]

/-- Documents below the 300-character floor can be deleted from the batch
without changing the accumulated chunk list. -/
lemma allChunksOf_filter_short (city : City) : ∀ docs : List ExtractedDoc,
    allChunksOf city docs =
      allChunksOf city (docs.filter (fun d => decide (300 ≤ d.raw_text.length))) := by
  intro docs
  induction docs with
  | nil => rfl
  | cons d ds ih =>
    unfold allChunksOf at ih ⊢
    by_cases h : 300 ≤ d.raw_text.length
    · simp [List.filter_cons, h, ih]
    · have hshort : d.raw_text.length < 300 := by omega
      simp [List.filter_cons, h, docChunksOf_eq_nil_of_short city d hshort, ih]

/-- Both variants of the merge loop agree: the buggy location clause is
reflexively true, so only the service comparison filters. -/
lemma similarIssues_eq (issues : List Issue) (issue : Issue) :
    similarIssues issues issue = similarIssuesByServiceOnly issues issue := by
  unfold similarIssues similarIssuesByServiceOnly
  refine List.filter_congr (fun i _ => ?_)
  simp

lemma mergeIssuesGo_eq (issues : List Issue) :
    ∀ (l : List Issue) (seen : List Str),
      mergeIssuesGo issues l seen = mergeIssuesByServiceOnlyGo issues l seen := by
  intro l
  induction l with
  | nil => intro seen; rfl
  | cons issue rest ih =>
    intro seen
    unfold mergeIssuesGo mergeIssuesByServiceOnlyGo
    rw [similarIssues_eq]
    by_cases h : issueKey issue ∈ seen
    · simp only [if_pos h, ih]
    · simp only [if_neg h, ih]

/-- Members of `uniqueGo rs i l` have their url's `findIdx` at least `i`. -/
lemma uniqueGo_mem_ge (rs : List DiscoveredLink) :
    ∀ (l : List DiscoveredLink) (i : Nat) (x : DiscoveredLink),
      x ∈ uniqueGo rs i l → i ≤ rs.findIdx (fun t => t.url == x.url) := by
  intro l
  induction l with
  | nil => intro i x hx; simp [uniqueGo] at hx
  | cons r rest ih =>
    intro i x hx
    unfold uniqueGo at hx
    by_cases h : (rs.findIdx (fun t => t.url == r.url) == i) = true
    · rw [if_pos h] at hx
      rcases List.mem_cons.1 hx with rfl | hmem
      · have h1 : rs.findIdx (fun t => t.url == x.url) = i := by simpa using h
        omega
      · exact Nat.le_of_succ_le (ih (i + 1) x hmem)
    · rw [if_neg h] at hx
      exact Nat.le_of_succ_le (ih (i + 1) x hx)

/-- The kept items of `uniqueGo` have pairwise distinct urls. -/
lemma uniqueGo_pairwise (rs : List DiscoveredLink) :
    ∀ (l : List DiscoveredLink) (i : Nat),
      List.Pairwise (fun a b => a.url ≠ b.url) (uniqueGo rs i l) := by
  intro l
  induction l with
  | nil => intro i; simp [uniqueGo]
  | cons r rest ih =>
    intro i
    unfold uniqueGo
    by_cases h : (rs.findIdx (fun t => t.url == r.url) == i) = true
    · rw [if_pos h]
      refine List.Pairwise.cons ?_ (ih (i + 1))
      intro y hy hurl
      have h1 : rs.findIdx (fun t => t.url == r.url) = i := by simpa using h
      have h2 : i + 1 ≤ rs.findIdx (fun t => t.url == y.url) :=
        uniqueGo_mem_ge rs rest (i + 1) y hy
      rw [hurl] at h1
      omega
    · rw [if_neg h]
      exact ih (i + 1)

/-- Deduplicated discovery results have pairwise distinct urls. -/
lemma uniqueResults_pairwise (rs : List DiscoveredLink) :
    List.Pairwise (fun a b => a.url ≠ b.url) (uniqueResults rs) :=
  uniqueGo_pairwise rs rs 0


/-- Structure dichotomy of a document's chunk list: either the document is
rejected, or its chunks are the numbered split of its narrowed text. -/
lemma docChunksOf_eq (city : City) (doc : ExtractedDoc) :
    docChunksOf city doc = [] ∨
    docChunksOf city doc =
      numberChunks city.name doc.source_url doc.title
        (splitIntoChunks (filteredTextOf doc)).length 1
        (splitIntoChunks (filteredTextOf doc)) := by
  unfold docChunksOf
  split_ifs with h1 h2 h3
  · exact Or.inl rfl
  · exact Or.inl rfl
  · exact Or.inl rfl
  · show (if (filteredTextOf doc).length < 300 then ([] : List TextChunk)
      else numberChunks city.name doc.source_url doc.title
        (splitIntoChunks (filteredTextOf doc)).length 1
        (splitIntoChunks (filteredTextOf doc))) = [] ∨ _
    by_cases h4 : (filteredTextOf doc).length < 300
    · rw [if_pos h4]; exact Or.inl rfl
    · rw [if_neg h4]; exact Or.inr rfl

/-- Membership facts for numbered chunks: the metadata fields, the index
bounds, and the origin of the text. -/
lemma numberChunks_mem (m su ti : Str) (tot : Nat) :
    ∀ (cs : List Str) (i : Nat) (c : TextChunk), c ∈ numberChunks m su ti tot i cs →
      c.total_chunks = tot ∧ i ≤ c.chunk_index ∧ c.chunk_index < i + cs.length ∧
      c.text ∈ cs := by
  intro cs
  induction cs with
  | nil => intro i c hc; simp [numberChunks] at hc
  | cons x rest ih =>
    intro i c hc
    unfold numberChunks at hc
    rcases List.mem_cons.1 hc with rfl | hmem
    · refine ⟨rfl, Nat.le_refl _, ?_, List.mem_cons_self _ _⟩
      simp only [List.length_cons]; omega
    · obtain ⟨ht, hge, hlt, htext⟩ := ih (i + 1) c hmem
      refine ⟨ht, by omega, ?_, List.mem_cons_of_mem _ htext⟩
      simp only [List.length_cons]; omega

/-- The chunk indices of a numbered list are consecutive from the start. -/
lemma numberChunks_map_index (m su ti : Str) (tot : Nat) :
    ∀ (cs : List Str) (i : Nat),
      (numberChunks m su ti tot i cs).map (fun c => c.chunk_index) =
        List.range' i cs.length := by
  intro cs
  induction cs with
  | nil => intro i; rfl
  | cons x rest ih =>
    intro i
    simp only [numberChunks, List.map_cons, List.length_cons, List.range'_succ, ih]

/-- Numbering preserves the chunk count. -/
lemma numberChunks_length (m su ti : Str) (tot : Nat) :
    ∀ (cs : List Str) (i : Nat), (numberChunks m su ti tot i cs).length = cs.length := by
  intro cs
  induction cs with
  | nil => intro i; rfl
  | cons x rest ih => intro i; simp only [numberChunks, List.length_cons, ih]

/-- Every chunk that `chunkDocuments` returns is one of the accumulated
chunks. -/
lemma chunkDocuments_subset (city : City) (docs : List ExtractedDoc) (c : TextChunk)
    (hc : c ∈ chunkDocuments city docs) : c ∈ allChunksOf city docs := by
  unfold chunkDocuments at hc
  by_cases h : 30 < (allChunksOf city docs).length
  · rw [if_pos h] at hc
    have h1 : c ∈ List.insertionSort chunkBefore (allChunksOf city docs) :=
      (List.take_sublist _ _).subset hc
    exact (List.perm_insertionSort chunkBefore _).subset h1
  · rwa [if_neg h] at hc

/-- Elements below the fold of max are bounded by it. -/
lemma le_foldr_max (f : Str → Nat) : ∀ (l : List Str) (x : Str), x ∈ l →
    f x ≤ (l.map f).foldr max 0 := by
  intro l
  induction l with
  | nil => intro x hx; cases hx
  | cons a rest ih =>
    intro x hx
    rcases List.mem_cons.1 hx with rfl | hmem
    · simp only [List.map_cons, List.foldr_cons]; exact Nat.le_max_left _ _
    · simp only [List.map_cons, List.foldr_cons]
      exact le_trans (ih x hmem) (Nat.le_max_right _ _)

/-- Every chunk the accumulation loop builds stays within the bound `B`
whenever the current chunk, the limit and every sentence stay within it. -/
lemma buildChunks_bound (maxChars B : Nat) :
    ∀ (sents : List Str) (cur : Str), cur.length ≤ B → maxChars ≤ B →
      (∀ s ∈ sents, (jsTrim s).length + 1 ≤ B) →
      ∀ c ∈ buildChunks maxChars sents cur, c.length ≤ B := by
  intro sents
  induction sents with
  | nil =>
    intro cur hcur _ _ c hc
    unfold buildChunks at hc
    by_cases he : cur.isEmpty
    · rw [if_pos he] at hc; cases hc
    · rw [if_neg he] at hc
      rcases List.mem_cons.1 hc with rfl | h
      · exact le_trans (jsTrim_length_le cur) hcur
      · cases h
  | cons s rest ih =>
    intro cur hcur hmax hsents c hc
    have hs : (jsTrim s).length + 1 ≤ B := hsents s (List.mem_cons_self _ _)
    have hrest : ∀ x ∈ rest, (jsTrim x).length + 1 ≤ B :=
      fun x hx => hsents x (List.mem_cons_of_mem _ hx)
    rw [show buildChunks maxChars (s :: rest) cur =
        (if (jsTrim s).isEmpty then buildChunks maxChars rest cur
         else
           if (if cur.isEmpty then jsTrim s ++ [ '.' ]
               else cur ++ [' '] ++ jsTrim s ++ [ '.' ]).length ≤ maxChars then
             buildChunks maxChars rest
               (if cur.isEmpty then jsTrim s ++ [ '.' ]
                else cur ++ [' '] ++ jsTrim s ++ [ '.' ])
           else if cur.isEmpty then buildChunks maxChars rest (jsTrim s ++ [ '.' ])
           else jsTrim cur :: buildChunks maxChars rest (jsTrim s ++ [ '.' ])) from rfl] at hc
    by_cases h1 : (jsTrim s).isEmpty
    · rw [if_pos h1] at hc
      exact ih cur hcur hmax hrest c hc
    · rw [if_neg h1] at hc
      have hts : (jsTrim s ++ [ '.' ]).length ≤ B := by
        simp only [List.length_append, List.length_cons, List.length_nil]
        omega
      by_cases h2 : (if cur.isEmpty then jsTrim s ++ [ '.' ]
          else cur ++ [' '] ++ jsTrim s ++ [ '.' ]).length ≤ maxChars
      · rw [if_pos h2] at hc
        exact ih _ (le_trans h2 hmax) hmax hrest c hc
      · rw [if_neg h2] at hc
        by_cases h3 : cur.isEmpty
        · rw [if_pos h3] at hc
          exact ih _ hts hmax hrest c hc
        · rw [if_neg h3] at hc
          rcases List.mem_cons.1 hc with rfl | hmem
          · exact le_trans (jsTrim_length_le cur) hcur
          · exact ih _ hts hmax hrest c hmem

/-- Chunks of the splitter are longer than 100 characters and bounded by the
larger of the limit and the longest sentence plus its period. -/
lemma splitIntoChunks_bounds (t : Str) (maxChars : Nat) (c : Str)
    (hc : c ∈ splitIntoChunks t maxChars) :
    100 < c.length ∧ c.length ≤ max maxChars (maxSentencePlusOne t) := by
  unfold splitIntoChunks at hc
  have hmem := List.mem_filter.1 hc
  refine ⟨by simpa using hmem.2, ?_⟩
  refine buildChunks_bound maxChars (max maxChars (maxSentencePlusOne t))
    (splitSentences t) [] (by simp) (Nat.le_max_left _ _) ?_ c hmem.1
  intro s hs
  exact le_trans (le_foldr_max (fun s => (jsTrim s).length + 1) _ s hs)
    (Nat.le_max_right _ _)

/-- Word lists are never empty (JS `split` always returns at least one
piece). -/
lemma splitWsRunsGo_ne_nil : ∀ (fuel : Nat) (s : Str), splitWsRunsGo fuel s ≠ [] := by
  intro fuel
  induction fuel with
  | zero => intro s; simp [splitWsRunsGo]
  | succ n ih =>
    intro s
    cases s with
    | nil => simp [splitWsRunsGo]
    | cons c rest =>
      unfold splitWsRunsGo
      by_cases h : isWsChar c = true
      · rw [if_pos h]; simp
      · rw [if_neg h]
        cases hg : splitWsRunsGo n rest with
        | nil => exact absurd hg (ih rest)
        | cons p ps => simp [consHead, hg]

/-- The word count divisor of the density is positive. -/
lemma densityCounts_den_pos (t : Str) : 0 < (densityCounts t).2 := by
  unfold densityCounts splitWsRuns
  simp only
  exact List.length_pos.2 (splitWsRunsGo_ne_nil _ _)

/-- The sorting order of `chunkDocuments` agrees with the comparison of exact
rational keyword densities. -/
lemma chunkBefore_iff (a b : TextChunk) :
    chunkBefore a b ↔
      calculateKeywordDensity b.text ≤ calculateKeywordDensity a.text := by
  unfold chunkBefore calculateKeywordDensity
  rw [div_le_div_iff
    (by exact_mod_cast densityCounts_den_pos b.text)
    (by exact_mod_cast densityCounts_den_pos a.text)]
  constructor
  · intro h; exact_mod_cast h
  · intro h; exact_mod_cast h

instance : IsTotal TextChunk chunkBefore :=
  ⟨fun a b => by
    rw [chunkBefore_iff, chunkBefore_iff]
    exact le_total (calculateKeywordDensity b.text) (calculateKeywordDensity a.text)⟩

instance : IsTrans TextChunk chunkBefore :=
  ⟨fun a b c hab hbc => by
    rw [chunkBefore_iff] at hab hbc ⊢
    exact le_trans hbc hab⟩

/-- Chunking a replicated batch replicates the per-document chunks. -/
lemma allChunksOf_replicate (city : City) (d : ExtractedDoc) :
    ∀ n : Nat, (allChunksOf city (List.replicate n d)).length =
      n * (docChunksOf city d).length := by
  intro n
  induction n with
  | zero => simp [allChunksOf]
  | succ k ih =>
    simp only [List.replicate_succ, allChunksOf, List.flatMap_cons, List.length_append]
    unfold allChunksOf at ih
    rw [ih]
    ring


/-- Characters of a joined list come from the separator or from the pieces. -/
lemma mem_joinSep (sep : Str) : ∀ (ps : List Str) (c : Char), c ∈ joinSep sep ps →
    c ∈ sep ∨ ∃ p ∈ ps, c ∈ p := by
  intro ps
  induction ps with
  | nil => intro c hc; cases hc
  | cons p rest ih =>
    intro c hc
    cases rest with
    | nil =>
      right; exact ⟨p, List.mem_cons_self _ _, hc⟩
    | cons q qs =>
      rcases List.mem_append.1 hc with h1 | h2
      · rcases List.mem_append.1 h1 with hp | hsep
        · right; exact ⟨p, List.mem_cons_self _ _, hp⟩
        · left; exact hsep
      · rcases ih c h2 with hsep | ⟨x, hx, hcx⟩
        · left; exact hsep
        · right; exact ⟨x, List.mem_cons_of_mem _ hx, hcx⟩

/-- Characters of the keyword-free filler sentences. -/
lemma zfill_chars (n : Nat) : ∀ c ∈ zfill n, c ∈ zalpha := by
  intro c hc
  rw [List.eq_of_mem_replicate hc]
  decide

/-- Characters of the keyword-dense sentences. -/
lemma textA_chars : ∀ c ∈ textA, c ∈ zalpha := by
  intro c hc
  obtain ⟨p, hp, hcp⟩ := List.mem_flatten.1 hc
  rw [List.eq_of_mem_replicate hp] at hcp
  exact (by decide : ∀ c ∈ str "citizens", c ∈ zalpha) c hcp

/-- Characters of the whole `zdoc` document text. -/
lemma zraw_chars (n : Nat) : ∀ c ∈ zraw n, c ∈ zalpha := by
  intro c hc
  unfold zraw at hc
  simp only [List.append_assoc, List.mem_append] at hc
  rcases hc with h | h | h | h | h | h
  · exact textA_chars c h
  · exact (by decide : ∀ c ∈ str ".", c ∈ zalpha) c h
  · exact textA_chars c h
  · exact (by decide : ∀ c ∈ str ".", c ∈ zalpha) c h
  · exact zfill_chars n c h
  · exact (by decide : ∀ c ∈ str ".", c ∈ zalpha) c h

/-- A successful prefix match puts every pattern character into the string. -/
lemma startsWithStr_chars : ∀ (s pat : Str), startsWithStr s pat = true →
    ∀ c ∈ pat, c ∈ s := by
  intro s
  induction s with
  | nil =>
    intro pat h c hc
    cases pat with
    | nil => cases hc
    | cons p ps => simp [startsWithStr] at h
  | cons a rest ih =>
    intro pat h c hc
    cases pat with
    | nil => cases hc
    | cons p ps =>
      simp only [startsWithStr, Bool.and_eq_true, beq_iff_eq] at h
      rcases List.mem_cons.1 hc with rfl | hmem
      · rw [← h.1]; exact List.mem_cons_self _ _
      · exact List.mem_cons_of_mem _ (ih ps h.2 c hmem)

/-- A successful substring search puts every pattern character into the
string. -/
lemma includesAux_chars : ∀ (s pat : Str), includesAux pat s = true →
    ∀ c ∈ pat, c ∈ s := by
  intro s
  induction s with
  | nil =>
    intro pat h c hc
    cases pat with
    | nil => cases hc
    | cons p ps => simp [includesAux, startsWithStr] at h
  | cons a rest ih =>
    intro pat h c hc
    simp only [includesAux, Bool.or_eq_true] at h
    rcases h with h | h
    · exact startsWithStr_chars _ pat h c hc
    · exact List.mem_cons_of_mem _ (ih pat h c hc)

/-- A pattern with a character outside the string never occurs in it. -/
lemma jsIncludes_eq_false (s pat : Str) (p : Char) (hp : p ∈ pat) (hps : p ∉ s) :
    jsIncludes s pat = false := by
  unfold jsIncludes
  cases h : includesAux pat s with
  | false => rfl
  | true => exact absurd (includesAux_chars s pat h p hp) hps

/-- A successful case-insensitive prefix match puts every lowered pattern
character into the lowered string. -/
lemma lcStartsWith_chars : ∀ (s pat : Str), lcStartsWith s pat = true →
    ∀ c ∈ pat, c.toLower ∈ s.map Char.toLower := by
  intro s
  induction s with
  | nil =>
    intro pat h c hc
    cases pat with
    | nil => cases hc
    | cons p ps => simp [lcStartsWith] at h
  | cons a rest ih =>
    intro pat h c hc
    cases pat with
    | nil => cases hc
    | cons p ps =>
      simp only [lcStartsWith, Bool.and_eq_true, beq_iff_eq] at h
      rcases List.mem_cons.1 hc with rfl | hmem
      · rw [← h.1]; simp
      · simp only [List.map_cons, List.mem_cons]
        exact Or.inr (ih ps h.2 c hmem)

/-- A nonempty-pattern match requires the anchor to match at the start. -/
lemma patExtent_isSome_anchor (l1 : Str) (ls : List Str) (s : Str)
    (h : (patExtent (l1 :: ls) s).isSome = true) : lcStartsWith s l1 = true := by
  cases hsw : lcStartsWith s l1 with
  | true => rfl
  | false =>
    rw [show patExtent (l1 :: ls) s = none from by simp [patExtent, hsw]] at h
    cases h

/-- A matching regex anchors its first literal at some position, so every
lowered anchor character appears in the lowered string. -/
lemma regexTest_chars (l1 : Str) (ls : List Str) : ∀ (s : Str),
    regexTest (l1 :: ls) s = true → ∀ c ∈ l1, c.toLower ∈ s.map Char.toLower := by
  intro s
  induction s with
  | nil =>
    intro h c hc
    cases hl : l1 with
    | nil => rw [hl] at hc; cases hc
    | cons p ps =>
      rw [hl] at h
      simp [regexTest, patExtent, lcStartsWith] at h
  | cons a rest ih =>
    intro h c hc
    rw [show regexTest (l1 :: ls) (a :: rest) =
        ((patExtent (l1 :: ls) (a :: rest)).isSome || regexTest (l1 :: ls) rest)
      from rfl] at h
    rcases Bool.or_eq_true_iff.1 h with h1 | h2
    · exact lcStartsWith_chars _ l1 (patExtent_isSome_anchor l1 ls _ h1) c hc
    · simp only [List.map_cons, List.mem_cons]
      exact Or.inr (ih h2 c hc)

/-- Regexes whose anchor contains a character missing from the string never
match. -/
lemma regexTest_eq_false (l1 : Str) (ls : List Str) (s : Str) (p : Char)
    (hp : p ∈ l1) (hps : p.toLower ∉ s.map Char.toLower) :
    regexTest (l1 :: ls) s = false := by
  cases h : regexTest (l1 :: ls) s with
  | false => rfl
  | true => exact absurd (regexTest_chars l1 ls s h p hp) hps

/-- Lowering a string over the lowercase alphabet stays inside it. -/
lemma map_toLower_chars (s : Str) (hs : ∀ c ∈ s, c ∈ zalpha) :
    ∀ c ∈ s.map Char.toLower, c ∈ zalpha := by
  intro c hc
  obtain ⟨a, ha, rfl⟩ := List.mem_map.1 hc
  exact (by decide : ∀ a ∈ zalpha, a.toLower ∈ zalpha) a (hs a ha)

/-- Regex-false via the alphabet: if the anchor has a character whose
lowercase falls outside `zalpha` and the string's characters all lie inside,
the regex cannot match. -/
lemma regexTest_false_on_zalpha (l1 : Str) (ls : List Str) (s : Str)
    (hchars : ∀ c ∈ s, c ∈ zalpha) (p : Char) (hp : p ∈ l1)
    (hmiss : p.toLower ∉ zalpha) : regexTest (l1 :: ls) s = false := by
  refine regexTest_eq_false l1 ls s p hp (fun hin => hmiss ?_)
  exact map_toLower_chars s hchars _ hin

/-- Includes-false via the alphabet (case-sensitive form). -/
lemma jsIncludes_false_on_zalpha (s pat : Str) (hchars : ∀ c ∈ s, c ∈ zalpha)
    (p : Char) (hp : p ∈ pat) (hmiss : p ∉ zalpha) : jsIncludes s pat = false :=
  jsIncludes_eq_false s pat p hp (fun hin => hmiss (hchars p hin))


/-- Lowering is the identity on the document alphabet. -/
lemma toLowerStr_id (s : Str) (hs : ∀ c ∈ s, c ∈ zalpha) : toLowerStr s = s := by
  unfold toLowerStr
  induction s with
  | nil => rfl
  | cons a rest ih =>
    simp only [List.map_cons, List.cons.injEq]
    refine ⟨(by decide : ∀ a ∈ zalpha, a.toLower = a) a (hs a (List.mem_cons_self _ _)), ?_⟩
    exact ih (fun c hc => hs c (List.mem_cons_of_mem _ hc))

/-- Trimming is the identity when both ends are not whitespace. -/
lemma jsTrim_id (s : Str) (hh : ∀ c, s.head? = some c → isWsChar c = false)
    (hl : ∀ c, s.getLast? = some c → isWsChar c = false) : jsTrim s = s := by
  cases s with
  | nil => rfl
  | cons a rest =>
    unfold jsTrim
    have ha : isWsChar a = false := hh a rfl
    rw [List.dropWhile_cons_of_neg (by simp [ha])]
    cases hrev : (a :: rest).reverse with
    | nil => exact absurd hrev (by simp)
    | cons b bs =>
      have hb : (a :: rest).getLast? = some b := by
        rw [← List.head?_reverse, hrev]; rfl
      have hbws : isWsChar b = false := hl b hb
      rw [List.dropWhile_cons_of_neg (by simp [hbws]), ← hrev, List.reverse_reverse]

/-- Trimming is the identity on whitespace-free strings. -/
lemma jsTrim_id_of_nows (s : Str) (hs : ∀ c ∈ s, isWsChar c = false) : jsTrim s = s := by
  refine jsTrim_id s (fun c hc => hs c ?_) (fun c hc => hs c ?_)
  · exact List.mem_of_mem_head? hc
  · exact List.mem_of_mem_getLast? hc

/-- The document alphabet contains no whitespace. -/
lemma zalpha_nows : ∀ c ∈ zalpha, isWsChar c = false := by decide

/-- Collapsing whitespace runs is the identity on whitespace-free strings. -/
lemma collapseWsGo_id_nows : ∀ (fuel : Nat) (s : Str),
    (∀ c ∈ s, isWsChar c = false) → collapseWsGo fuel s = s := by
  intro fuel
  induction fuel with
  | zero => intro s _; rfl
  | succ n ih =>
    intro s hs
    cases s with
    | nil => rfl
    | cons c rest =>
      unfold collapseWsGo
      rw [if_neg (by simp [hs c (List.mem_cons_self _ _)])]
      rw [ih rest (fun x hx => hs x (List.mem_cons_of_mem _ hx))]

/-- Paragraph splitting is the identity (one piece) without line feeds. -/
lemma splitParasGo_no_nl : ∀ (fuel : Nat) (s : Str),
    (∀ c ∈ s, (c == '\n') = false) → splitParasGo fuel s = [s] := by
  intro fuel
  induction fuel with
  | zero => intro s _; rfl
  | succ n ih =>
    intro s hs
    cases s with
    | nil => rfl
    | cons c rest =>
      unfold splitParasGo
      rw [if_neg (by simp [hs c (List.mem_cons_self _ _)])]
      rw [ih rest (fun x hx => hs x (List.mem_cons_of_mem _ hx))]
      rfl

/-- Deleting the matches of a regex whose anchor misses the alphabet is the
identity. -/
lemma replaceAllGo_id (l1 : Str) (ls : List Str) (p : Char) (hp : p ∈ l1)
    (hmiss : p.toLower ∉ zalpha) : ∀ (fuel : Nat) (s : Str),
    (∀ c ∈ s, c ∈ zalpha) → replaceAllGo (l1 :: ls) fuel s = s := by
  intro fuel
  induction fuel with
  | zero => intro s _; rfl
  | succ n ih =>
    intro s hs
    cases s with
    | nil => rfl
    | cons c rest =>
      have hpe : patExtent (l1 :: ls) (c :: rest) = none := by
        cases hpe : patExtent (l1 :: ls) (c :: rest) with
        | none => rfl
        | some e =>
          have hsw := patExtent_isSome_anchor l1 ls (c :: rest) (by rw [hpe]; rfl)
          have := lcStartsWith_chars _ l1 hsw p hp
          exact absurd (map_toLower_chars _ hs _ this) hmiss
      have hgoal : replaceAllGo (l1 :: ls) (n + 1) (c :: rest) =
          c :: replaceAllGo (l1 :: ls) n rest := by
        simp only [replaceAllGo, hpe]
      rw [hgoal, ih rest (fun x hx => hs x (List.mem_cons_of_mem _ hx))]

/-- Words carved out of a string use only its characters. -/
lemma splitWsRunsGo_piece_chars : ∀ (fuel : Nat) (s piece : Str),
    piece ∈ splitWsRunsGo fuel s → ∀ c ∈ piece, c ∈ s := by
  intro fuel
  induction fuel with
  | zero =>
    intro s piece hp c hc
    rw [List.eq_of_mem_singleton hp] at hc
    exact hc
  | succ n ih =>
    intro s piece hp c hc
    cases s with
    | nil =>
      rw [List.eq_of_mem_singleton hp] at hc
      cases hc
    | cons a rest =>
      unfold splitWsRunsGo at hp
      by_cases hw : isWsChar a = true
      · rw [if_pos hw] at hp
        rcases List.mem_cons.1 hp with rfl | hmem
        · cases hc
        · have := ih (rest.dropWhile isWsChar) piece hmem c hc
          exact List.mem_cons_of_mem _ ((List.dropWhile_sublist _).subset this)
      · rw [if_neg hw] at hp
        cases hg : splitWsRunsGo n rest with
        | nil => exact absurd hg (splitWsRunsGo_ne_nil n rest)
        | cons q qs =>
          rw [hg] at hp
          simp only [consHead] at hp
          rcases List.mem_cons.1 hp with rfl | hmem
          · rcases List.mem_cons.1 hc with rfl | hcq
            · exact List.mem_cons_self _ _
            · have : c ∈ q := hcq
              have hq : q ∈ splitWsRunsGo n rest := by rw [hg]; exact List.mem_cons_self _ _
              exact List.mem_cons_of_mem _ (ih rest q hq c this)
          · have hqs : piece ∈ splitWsRunsGo n rest := by
              rw [hg]; exact List.mem_cons_of_mem _ hmem
            exact List.mem_cons_of_mem _ (ih rest piece hqs c hc)

/-- Prepending distributes over the head piece. -/
lemma consHead_prependHead (c : Char) (u : Str) (l : List Str) :
    consHead c (prependHead u l) = prependHead (c :: u) l := by
  cases l <;> rfl

/-- One non-delimiter step of the character split. -/
lemma splitOnChar_cons_of_neg (p : Char → Bool) (c : Char) (s : Str)
    (hc : p c = false) : splitOnChar p (c :: s) = consHead c (splitOnChar p s) := by
  conv_lhs => unfold splitOnChar
  rw [if_neg (by simp [hc])]

/-- Character splits always produce at least one piece. -/
lemma splitOnChar_ne_nil (p : Char → Bool) : ∀ (s : Str), splitOnChar p s ≠ [] := by
  intro s
  induction s with
  | nil => simp [splitOnChar]
  | cons c rest ih =>
    unfold splitOnChar
    by_cases h : p c = true
    · rw [if_pos h]; simp
    · rw [if_neg h]
      cases hg : splitOnChar p rest with
      | nil => exact absurd hg ih
      | cons q qs => simp [consHead, hg]

/-- A delimiter-free prefix attaches to the first piece of a split. -/
lemma splitOnChar_append_no_delim (p : Char → Bool) : ∀ (u v : Str),
    (∀ c ∈ u, p c = false) →
    splitOnChar p (u ++ v) = prependHead u (splitOnChar p v) := by
  intro u
  induction u with
  | nil =>
    intro v _
    cases h : splitOnChar p v with
    | nil => exact absurd h (splitOnChar_ne_nil p v)
    | cons q qs => simp [prependHead, h]
  | cons a rest ih =>
    intro v hu
    simp only [List.cons_append]
    rw [splitOnChar_cons_of_neg p a _ (hu a (List.mem_cons_self _ _))]
    rw [ih v (fun c hc => hu c (List.mem_cons_of_mem _ hc))]
    exact consHead_prependHead a rest _

/-- Lengths of the concrete texts. -/
lemma textA_length : textA.length = 152 := rfl

lemma zfill_length (n : Nat) : (zfill n).length = n := List.length_replicate n 'z'

lemma chunkTextM_length : chunkTextM.length = 307 := rfl

lemma zraw_length (n : Nat) : (zraw n).length = n + 307 := by
  unfold zraw
  simp only [List.length_append, textA_length, zfill_length,
    (show (str ".").length = 1 from rfl)]
  omega

/-- A delimiter at the head of the string closes an empty piece. -/
lemma splitOnChar_delim_cons (p : Char → Bool) (c : Char) (s : Str)
    (hc : p c = true) : splitOnChar p (c :: s) = [] :: splitOnChar p s := by
  conv_lhs => unfold splitOnChar
  rw [if_pos hc]

lemma splitSentDelims_zraw (n : Nat) :
    splitSentDelims (zraw n) = [textA, textA, zfill n, []] := by
  have hA : ∀ c ∈ textA,
      ((c == '.' || c == '!' || c == '?') : Bool) = false := by
    intro c hc
    obtain ⟨q, hq, hcq⟩ := List.mem_flatten.1 hc
    rw [List.eq_of_mem_replicate hq] at hcq
    exact (by decide : ∀ c ∈ str "citizens",
      ((c == '.' || c == '!' || c == '?') : Bool) = false) c hcq
  have hZ : ∀ c ∈ zfill n,
      ((c == '.' || c == '!' || c == '?') : Bool) = false := by
    intro c hc
    rw [List.eq_of_mem_replicate hc]
    decide
  have hshape : zraw n = textA ++ ('.' :: (textA ++ ('.' :: (zfill n ++ ['.'])))) := rfl
  unfold splitSentDelims
  rw [hshape]
  rw [splitOnChar_append_no_delim _ textA _ hA]
  rw [splitOnChar_delim_cons (fun c => c == '.' || c == '!' || c == '?') '.' _ (by decide)]
  rw [splitOnChar_append_no_delim _ textA _ hA]
  rw [splitOnChar_delim_cons (fun c => c == '.' || c == '!' || c == '?') '.' _ (by decide)]
  rw [splitOnChar_append_no_delim _ (zfill n) _ hZ]
  rw [splitOnChar_delim_cons (fun c => c == '.' || c == '!' || c == '?') '.' _ (by decide)]
  simp [splitOnChar, prependHead]


/-- Trimming leaves the filler unchanged. -/
lemma jsTrim_zfill (n : Nat) : jsTrim (zfill n) = zfill n :=
  jsTrim_id_of_nows _ (fun c hc => zalpha_nows c (zfill_chars n c hc))

/-- Trimming leaves the parametric document text unchanged. -/
lemma jsTrim_zraw (n : Nat) : jsTrim (zraw n) = zraw n :=
  jsTrim_id_of_nows _ (fun c hc => zalpha_nows c (zraw_chars n c hc))

/-- Whitespace collapsing leaves the parametric document text unchanged. -/
lemma collapseWs_zraw (n : Nat) : collapseWs (zraw n) = zraw n :=
  collapseWsGo_id_nows _ _ (fun c hc => zalpha_nows c (zraw_chars n c hc))

/-- Lowering leaves the parametric document text unchanged. -/
lemma toLowerStr_zraw (n : Nat) : toLowerStr (zraw n) = zraw n :=
  toLowerStr_id _ (zraw_chars n)

/-- No pattern with a non-`z` character occurs in the filler. -/
lemma jsIncludes_zfill_false (n : Nat) (pat : Str) (p : Char) (hp : p ∈ pat)
    (hpz : p ≠ 'z') : jsIncludes (zfill n) pat = false :=
  jsIncludes_eq_false _ _ p hp (fun hin => hpz (List.eq_of_mem_replicate hin))

/-- The parametric document text carries a community signal (its two
`citizens`-sentences both exceed 10 characters and contain the keyword). -/
lemma hasCommunitySignal_zraw (n : Nat) (hn : 11 ≤ n) :
    hasCommunitySignal (zraw n) = true := by
  have h2 : decide (10 < (jsTrim (zfill n)).length) = true := by
    rw [jsTrim_zfill, zfill_length]
    exact decide_eq_true (by omega)
  have g2 : (communityKeywords.any fun keyword =>
      jsIncludes (toLowerStr (zfill n)) (toLowerStr keyword)) = false := by
    rw [show toLowerStr (zfill n) = zfill n from toLowerStr_id _ (zfill_chars n)]
    refine List.any_eq_false.2 ?_
    intro k hk
    simp only [Bool.not_eq_true]
    simp only [communityKeywords, List.mem_cons, List.not_mem_nil, or_false] at hk
    rcases hk with rfl | rfl | rfl | rfl | rfl | rfl | rfl | rfl | rfl | rfl | rfl | rfl | rfl
    · refine jsIncludes_zfill_false n _ 'r' ?_ ?_ <;> decide
    · refine jsIncludes_zfill_false n _ 'o' ?_ ?_ <;> decide
    · refine jsIncludes_zfill_false n _ 'g' ?_ ?_ <;> decide
    · refine jsIncludes_zfill_false n _ 'g' ?_ ?_ <;> decide
    · refine jsIncludes_zfill_false n _ 'p' ?_ ?_ <;> decide
    · refine jsIncludes_zfill_false n _ 'o' ?_ ?_ <;> decide
    · refine jsIncludes_zfill_false n _ 'f' ?_ ?_ <;> decide
    · refine jsIncludes_zfill_false n _ 'u' ?_ ?_ <;> decide
    · refine jsIncludes_zfill_false n _ 'r' ?_ ?_ <;> decide
    · refine jsIncludes_zfill_false n _ 'c' ?_ ?_ <;> decide
    · refine jsIncludes_zfill_false n _ 'p' ?_ ?_ <;> decide
    · refine jsIncludes_zfill_false n _ 'k' ?_ ?_ <;> decide
    · refine jsIncludes_zfill_false n _ 'g' ?_ ?_ <;> decide
  unfold hasCommunitySignal
  rw [splitSentDelims_zraw]
  simp [h2, g2,
    (by decide : decide (10 < (jsTrim textA).length) = true),
    (by decide : decide (10 < (jsTrim ([] : Str)).length) = false),
    (by decide : (communityKeywords.any fun keyword =>
        jsIncludes (toLowerStr textA) (toLowerStr keyword)) = true)]

/-- The parametric document text is not procedural boilerplate: no pattern
matches at all. -/
lemma isProceduralBoilerplate_zraw (n : Nat) :
    isProceduralBoilerplate (zraw n) = false := by
  have hfilter :
      boilerplatePatterns.filter (fun pattern => regexTest pattern (zraw n)) = [] := by
    refine List.filter_eq_nil_iff.2 ?_
    intro pat hpat
    simp only [Bool.not_eq_true]
    simp only [boilerplatePatterns, List.mem_cons, List.not_mem_nil, or_false] at hpat
    rcases hpat with rfl | rfl | rfl | rfl | rfl | rfl | rfl | rfl | rfl | rfl | rfl | rfl
    · refine regexTest_false_on_zalpha _ _ _ (zraw_chars n) 'a' ?_ ?_ <;> decide
    · refine regexTest_false_on_zalpha _ _ _ (zraw_chars n) 'p' ?_ ?_ <;> decide
    · refine regexTest_false_on_zalpha _ _ _ (zraw_chars n) 'm' ?_ ?_ <;> decide
    · refine regexTest_false_on_zalpha _ _ _ (zraw_chars n) 'd' ?_ ?_ <;> decide
    · refine regexTest_false_on_zalpha _ _ _ (zraw_chars n) 'u' ?_ ?_ <;> decide
    · refine regexTest_false_on_zalpha _ _ _ (zraw_chars n) 'r' ?_ ?_ <;> decide
    · refine regexTest_false_on_zalpha _ _ _ (zraw_chars n) 'v' ?_ ?_ <;> decide
    · refine regexTest_false_on_zalpha _ _ _ (zraw_chars n) 'a' ?_ ?_ <;> decide
    · refine regexTest_false_on_zalpha _ _ _ (zraw_chars n) 'a' ?_ ?_ <;> decide
    · refine regexTest_false_on_zalpha _ _ _ (zraw_chars n) 'v' ?_ ?_ <;> decide
    · refine regexTest_false_on_zalpha _ _ _ (zraw_chars n) 'a' ?_ ?_ <;> decide
    · refine regexTest_false_on_zalpha _ _ _ (zraw_chars n) 'r' ?_ ?_ <;> decide
  unfold isProceduralBoilerplate
  rw [hfilter]
  simp

/-- The parametric document text matches no legal/financial/ceremonial
pattern. -/
lemma isLegalFinancialCeremonial_zraw (n : Nat) :
    isLegalFinancialCeremonial (zraw n) = false := by
  unfold isLegalFinancialCeremonial
  refine List.any_eq_false.2 ?_
  intro pat hpat
  simp only [Bool.not_eq_true]
  simp only [legalPatterns, List.mem_cons, List.not_mem_nil, or_false] at hpat
  rcases hpat with rfl | rfl | rfl | rfl | rfl | rfl | rfl | rfl | rfl | rfl | rfl | rfl | rfl | rfl
  · refine regexTest_false_on_zalpha _ _ _ (zraw_chars n) 'b' ?_ ?_ <;> decide
  · refine regexTest_false_on_zalpha _ _ _ (zraw_chars n) 'm' ?_ ?_ <;> decide
  · refine regexTest_false_on_zalpha _ _ _ (zraw_chars n) 'o' ?_ ?_ <;> decide
  · refine regexTest_false_on_zalpha _ _ _ (zraw_chars n) 'f' ?_ ?_ <;> decide
  · refine regexTest_false_on_zalpha _ _ _ (zraw_chars n) 'b' ?_ ?_ <;> decide
  · refine regexTest_false_on_zalpha _ _ _ (zraw_chars n) 'a' ?_ ?_ <;> decide
  · refine regexTest_false_on_zalpha _ _ _ (zraw_chars n) 'r' ?_ ?_ <;> decide
  · refine regexTest_false_on_zalpha _ _ _ (zraw_chars n) 'o' ?_ ?_ <;> decide
  · refine regexTest_false_on_zalpha _ _ _ (zraw_chars n) 'a' ?_ ?_ <;> decide
  · refine regexTest_false_on_zalpha _ _ _ (zraw_chars n) 'o' ?_ ?_ <;> decide
  · refine regexTest_false_on_zalpha _ _ _ (zraw_chars n) 'w' ?_ ?_ <;> decide
  · refine regexTest_false_on_zalpha _ _ _ (zraw_chars n) 'l' ?_ ?_ <;> decide
  · refine regexTest_false_on_zalpha _ _ _ (zraw_chars n) 'o' ?_ ?_ <;> decide
  · refine regexTest_false_on_zalpha _ _ _ (zraw_chars n) 'd' ?_ ?_ <;> decide

/-- The parametric document text matches no high-signal phrase pattern. -/
lemma highSignal_zraw (n : Nat) :
    (highSignalPatterns.any fun keyword => regexTest keyword (zraw n)) = false := by
  refine List.any_eq_false.2 ?_
  intro pat hpat
  simp only [Bool.not_eq_true]
  simp only [highSignalPatterns, List.mem_cons, List.not_mem_nil, or_false] at hpat
  rcases hpat with
    rfl | rfl | rfl | rfl | rfl | rfl | rfl | rfl | rfl | rfl | rfl | rfl | rfl | rfl | rfl | rfl | rfl
  · refine regexTest_false_on_zalpha _ _ _ (zraw_chars n) 'a' ?_ ?_ <;> decide
  · refine regexTest_false_on_zalpha _ _ _ (zraw_chars n) 'b' ?_ ?_ <;> decide
  · refine regexTest_false_on_zalpha _ _ _ (zraw_chars n) 'p' ?_ ?_ <;> decide
  · refine regexTest_false_on_zalpha _ _ _ (zraw_chars n) 'r' ?_ ?_ <;> decide
  · refine regexTest_false_on_zalpha _ _ _ (zraw_chars n) 'f' ?_ ?_ <;> decide
  · refine regexTest_false_on_zalpha _ _ _ (zraw_chars n) 'r' ?_ ?_ <;> decide
  · refine regexTest_false_on_zalpha _ _ _ (zraw_chars n) 'h' ?_ ?_ <;> decide
  · refine regexTest_false_on_zalpha _ _ _ (zraw_chars n) 'h' ?_ ?_ <;> decide
  · refine regexTest_false_on_zalpha _ _ _ (zraw_chars n) 'a' ?_ ?_ <;> decide
  · refine regexTest_false_on_zalpha _ _ _ (zraw_chars n) 'u' ?_ ?_ <;> decide
  · refine regexTest_false_on_zalpha _ _ _ (zraw_chars n) 'o' ?_ ?_ <;> decide
  · refine regexTest_false_on_zalpha _ _ _ (zraw_chars n) 'a' ?_ ?_ <;> decide
  · refine regexTest_false_on_zalpha _ _ _ (zraw_chars n) 'p' ?_ ?_ <;> decide
  · refine regexTest_false_on_zalpha _ _ _ (zraw_chars n) 'o' ?_ ?_ <;> decide
  · refine regexTest_false_on_zalpha _ _ _ (zraw_chars n) 'r' ?_ ?_ <;> decide
  · refine regexTest_false_on_zalpha _ _ _ (zraw_chars n) 'g' ?_ ?_ <;> decide
  · refine regexTest_false_on_zalpha _ _ _ (zraw_chars n) 'g' ?_ ?_ <;> decide

/-- High-signal narrowing of the parametric document text yields the empty
string: the single paragraph matches no signal phrase. -/
lemma filterHigh_zraw (n : Nat) : filterHighSignalParagraphs (zraw n) = [] := by
  have hparas : splitParas (zraw n) = [zraw n] :=
    splitParasGo_no_nl _ _ (fun c hc =>
      (by decide : ∀ c ∈ zalpha, (c == '\n') = false) c (zraw_chars n c hc))
  have h1 : decide (50 < (jsTrim (zraw n)).length) = true := by
    rw [jsTrim_zraw, zraw_length]
    exact decide_eq_true (by omega)
  unfold filterHighSignalParagraphs
  rw [hparas]
  simp [h1, highSignal_zraw n, joinSep]

/-- Low-signal stripping leaves the parametric document text unchanged: no
replacement pattern occurs, there is no whitespace to collapse, and trim is
the identity. -/
lemma removeLow_zraw (n : Nat) : removeLowSignalContent (zraw n) = zraw n := by
  have hz := zraw_chars n
  have hfold : removeLowSignalPatterns.foldl
      (fun t pattern => replaceAll pattern t) (zraw n) = zraw n := by
    simp only [removeLowSignalPatterns, List.foldl_cons, List.foldl_nil]
    rw [show replaceAll [str "speaker", str "roll", str "call"] (zraw n) = zraw n from
      replaceAllGo_id _ _ 'p' (by decide) (by decide) _ _ hz]
    rw [show replaceAll [str "motion", str "seconded", str "carried"] (zraw n) = zraw n from
      replaceAllGo_id _ _ 'm' (by decide) (by decide) _ _ hz]
    rw [show replaceAll [str "resolved", str "unanimously"] (zraw n) = zraw n from
      replaceAllGo_id _ _ 'r' (by decide) (by decide) _ _ hz]
    rw [show replaceAll [str "ayes", str "nays", str "motion"] (zraw n) = zraw n from
      replaceAllGo_id _ _ 'a' (by decide) (by decide) _ _ hz]
    rw [show replaceAll [str "vote", str "recorded", str "follows"] (zraw n) = zraw n from
      replaceAllGo_id _ _ 'v' (by decide) (by decide) _ _ hz]
    rw [show replaceAll [str "disclaimer", str "liability"] (zraw n) = zraw n from
      replaceAllGo_id _ _ 'd' (by decide) (by decide) _ _ hz]
    rw [show replaceAll [str "terms", str "conditions"] (zraw n) = zraw n from
      replaceAllGo_id _ _ 'r' (by decide) (by decide) _ _ hz]
    rw [show replaceAll [str "privacy", str "policy"] (zraw n) = zraw n from
      replaceAllGo_id _ _ 'p' (by decide) (by decide) _ _ hz]
    rw [show replaceAll [str "copyright", str "notice"] (zraw n) = zraw n from
      replaceAllGo_id _ _ 'o' (by decide) (by decide) _ _ hz]
    rw [show replaceAll [str "meeting", str "called", str "order"] (zraw n) = zraw n from
      replaceAllGo_id _ _ 'm' (by decide) (by decide) _ _ hz]
    rw [show replaceAll [str "adjournment", str "meeting"] (zraw n) = zraw n from
      replaceAllGo_id _ _ 'a' (by decide) (by decide) _ _ hz]
  unfold removeLowSignalContent
  rw [hfold, collapseWs_zraw, jsTrim_zraw]

/-- Content narrowing of the parametric document: the high-signal pass is
empty (shorter than 300), so the low-signal-stripped — unchanged — text is
kept. -/
lemma filteredTextOf_zdoc (n : Nat) : filteredTextOf (zdoc n) = zraw n := by
  show (if (filterHighSignalParagraphs (zdoc n).raw_text).length < 300
    then removeLowSignalContent (zdoc n).raw_text
    else filterHighSignalParagraphs (zdoc n).raw_text) = zraw n
  rw [show (zdoc n).raw_text = zraw n from rfl, filterHigh_zraw n]
  rw [if_pos (by simp)]
  exact removeLow_zraw n


/-- Sentences of the parametric document text surviving the blank filter. -/
lemma splitSentences_zraw (n : Nat) (hn : 1 ≤ n) :
    splitSentences (zraw n) = [textA, textA, zfill n] := by
  unfold splitSentences
  rw [splitSentDelims_zraw]
  have h2 : decide (0 < (jsTrim (zfill n)).length) = true := by
    rw [jsTrim_zfill, zfill_length]
    exact decide_eq_true (by omega)
  simp [h2,
    (by decide : decide (0 < (jsTrim textA).length) = true),
    (by decide : decide (0 < (jsTrim ([] : Str)).length) = false)]

/-- `buildChunks` step on an empty accumulator: whether or not the sentence
fits, the accumulator restarts from it (both branches coincide). -/
lemma buildChunks_step_empty (maxChars : Nat) (s : Str) (rest : List Str)
    (hne : (jsTrim s).isEmpty = false) :
    buildChunks maxChars (s :: rest) [] =
      buildChunks maxChars rest (jsTrim s ++ [ '.' ]) := by
  conv_lhs => unfold buildChunks
  simp [hne]

/-- `buildChunks` step on a nonempty accumulator when the extension fits. -/
lemma buildChunks_step_fits (maxChars : Nat) (s : Str) (rest : List Str)
    (cur : Str) (hne : (jsTrim s).isEmpty = false) (hcur : cur.isEmpty = false)
    (hfit : (cur ++ [' '] ++ jsTrim s ++ [ '.' ]).length ≤ maxChars) :
    buildChunks maxChars (s :: rest) cur =
      buildChunks maxChars rest (cur ++ [' '] ++ jsTrim s ++ [ '.' ]) := by
  conv_lhs => unfold buildChunks
  simp [hne, hcur, hfit]
  intro h
  exfalso
  simp only [List.length_append, List.length_cons, List.length_nil] at hfit
  omega

/-- `buildChunks` step on a nonempty accumulator when the extension
overflows: the accumulator is flushed. -/
lemma buildChunks_step_flush (maxChars : Nat) (s : Str) (rest : List Str)
    (cur : Str) (hne : (jsTrim s).isEmpty = false) (hcur : cur.isEmpty = false)
    (hbig : ¬ (cur ++ [' '] ++ jsTrim s ++ [ '.' ]).length ≤ maxChars) :
    buildChunks maxChars (s :: rest) cur =
      jsTrim cur :: buildChunks maxChars rest (jsTrim s ++ [ '.' ]) := by
  conv_lhs => unfold buildChunks
  simp [hne, hcur, hbig]
  intro h
  exfalso
  simp only [List.length_append, List.length_cons, List.length_nil] at hbig
  omega

/-- `buildChunks` flushes a nonempty accumulator at the end of the input. -/
lemma buildChunks_nil_ne (maxChars : Nat) (cur : Str)
    (hcur : cur.isEmpty = false) : buildChunks maxChars [] cur = [jsTrim cur] := by
  conv_lhs => unfold buildChunks
  simp [hcur]

/-- The parametric document text splits into its two chunks: the packed
double sentence and the oversized filler. -/
lemma splitIntoChunks_zraw (n : Nat) (hn : 2092 ≤ n) :
    splitIntoChunks (zraw n) 2400 = [chunkTextM, zfill n ++ [ '.' ]] := by
  have hsent := splitSentences_zraw n (by omega)
  have hne : (jsTrim textA).isEmpty = false := by decide
  have hzne : (jsTrim (zfill n)).isEmpty = false := by
    rw [jsTrim_zfill]
    obtain ⟨m, rfl⟩ : ∃ m, n = m + 1 := ⟨n - 1, by omega⟩
    rfl
  have hnows2 : ∀ c ∈ jsTrim (zfill n) ++ [ '.' ], isWsChar c = false := by
    intro c hc
    rw [jsTrim_zfill] at hc
    rcases List.mem_append.1 hc with h | h
    · rw [List.eq_of_mem_replicate h]; rfl
    · rw [List.eq_of_mem_singleton h]; rfl
  have hcur2 : (jsTrim (zfill n) ++ [ '.' ]).isEmpty = false := by
    cases h : (jsTrim (zfill n) ++ [ '.' ]).isEmpty with
    | false => rfl
    | true => exact absurd (List.isEmpty_iff.1 h) (by simp)
  have e1 : buildChunks 2400 [textA, textA, zfill n] [] =
      buildChunks 2400 [textA, zfill n] (jsTrim textA ++ [ '.' ]) :=
    buildChunks_step_empty 2400 textA _ hne
  have e2 : buildChunks 2400 [textA, zfill n] (jsTrim textA ++ [ '.' ]) =
      buildChunks 2400 [zfill n] chunkTextM := by
    rw [buildChunks_step_fits 2400 textA _ _ hne (by decide) (by decide)]
    rw [show (jsTrim textA ++ [ '.' ]) ++ [' '] ++ jsTrim textA ++ [ '.' ] =
      chunkTextM from by decide]
  have e3 : buildChunks 2400 [zfill n] chunkTextM =
      jsTrim chunkTextM :: buildChunks 2400 [] (jsTrim (zfill n) ++ [ '.' ]) := by
    refine buildChunks_step_flush 2400 (zfill n) [] chunkTextM hzne (by decide) ?_
    rw [jsTrim_zfill]
    simp only [List.length_append, chunkTextM_length, zfill_length,
      List.length_cons, List.length_nil]
    omega
  have e4 : buildChunks 2400 [] (jsTrim (zfill n) ++ [ '.' ]) =
      [jsTrim (jsTrim (zfill n) ++ [ '.' ])] :=
    buildChunks_nil_ne 2400 _ hcur2
  have htrim2 : jsTrim (jsTrim (zfill n) ++ [ '.' ]) = zfill n ++ [ '.' ] := by
    rw [jsTrim_id_of_nows _ hnows2, jsTrim_zfill]
  unfold splitIntoChunks
  rw [hsent, e1, e2, e3, e4, htrim2]
  rw [show jsTrim chunkTextM = chunkTextM from by decide]
  have hf2 : decide (100 < (zfill n ++ [ '.' ]).length) = true := by
    simp only [List.length_append, zfill_length, List.length_cons, List.length_nil]
    exact decide_eq_true (by omega)
  simp [hf2, (by decide : decide (100 < chunkTextM.length) = true)]
  rw [zfill_length]
  omega

/-- The parametric document contributes exactly its two numbered chunks. -/
lemma docChunksOf_zdoc (n : Nat) (hn : 2092 ≤ n) :
    docChunksOf cityX (zdoc n) =
      [⟨str "CityX", str "https://x/d1", str "d1", 1, 2, chunkTextM⟩,
       ⟨str "CityX", str "https://x/d1", str "d1", 2, 2, zfill n ++ [ '.' ]⟩] := by
  show (if !hasCommunitySignal (zdoc n).raw_text then []
    else if isProceduralBoilerplate (zdoc n).raw_text then []
    else if isLegalFinancialCeremonial (zdoc n).raw_text then []
    else if (filteredTextOf (zdoc n)).length < 300 then []
    else numberChunks cityX.name (zdoc n).source_url (zdoc n).title
      (splitIntoChunks (filteredTextOf (zdoc n)) 2400).length 1
      (splitIntoChunks (filteredTextOf (zdoc n)) 2400)) = _
  rw [show (zdoc n).raw_text = zraw n from rfl]
  rw [filteredTextOf_zdoc n, splitIntoChunks_zraw n hn]
  have hlen : ¬ ((zraw n).length < 300) := by
    rw [zraw_length]
    omega
  simp [hasCommunitySignal_zraw n (by omega), isProceduralBoilerplate_zraw n,
    isLegalFinancialCeremonial_zraw n, hlen, numberChunks, cityX, zdoc]


/-- The parametric document's chunk records. -/
lemma docChunksOf_zdoc_eq (n : Nat) (hn : 2092 ≤ n) :
    docChunksOf cityX (zdoc n) = [chD1, chD2 n] := docChunksOf_zdoc n hn

/-- The medium document yields its single chunk record. -/
lemma docChunksOf_medium : docChunksOf cityX docMedium = [chunkM] := by decide

/-- Chunks of a replicated medium batch. -/
lemma allChunksOf_replicate_medium : ∀ k : Nat,
    allChunksOf cityX (List.replicate k docMedium) = List.replicate k chunkM := by
  intro k
  induction k with
  | zero => simp [allChunksOf]
  | succ m ih =>
    unfold allChunksOf at ih ⊢
    rw [List.replicate_succ, List.flatMap_cons, docChunksOf_medium, ih]
    rfl

/-- Exact density counts of the packed dense chunk: both words contain the
keyword `citizens`. -/
lemma densityCounts_chunkTextM : densityCounts chunkTextM = (2, 2) := by decide

/-- A word drawn from the filler chunk contains no keyword. -/
lemma jsIncludes_filler_false (word : Str) (hchars : ∀ c ∈ word, c = 'z' ∨ c = '.')
    (pat : Str) (p : Char) (hp : p ∈ pat) (hp1 : p ≠ 'z') (hp2 : p ≠ '.') :
    jsIncludes word pat = false :=
  jsIncludes_eq_false _ _ p hp (fun hin => by
    rcases hchars p hin with h | h
    · exact hp1 h
    · exact hp2 h)

/-- The filler chunk has keyword count zero. -/
lemma densityCounts_filler_num (n : Nat) :
    (densityCounts (zfill n ++ [ '.' ])).1 = 0 := by
  have htl : toLowerStr (zfill n ++ [ '.' ]) = zfill n ++ [ '.' ] := by
    unfold toLowerStr zfill
    rw [List.map_append, List.map_replicate]
    rfl
  unfold densityCounts
  simp only
  refine List.countP_eq_zero.2 ?_
  intro word hword
  have hchars : ∀ c ∈ word, c = 'z' ∨ c = '.' := by
    intro c hc
    have h1 : c ∈ toLowerStr (zfill n ++ [ '.' ]) :=
      splitWsRunsGo_piece_chars _ _ word hword c hc
    rw [htl] at h1
    rcases List.mem_append.1 h1 with h | h
    · exact Or.inl (List.eq_of_mem_replicate h)
    · exact Or.inr (List.eq_of_mem_singleton h)
  simp only [Bool.not_eq_true]
  refine List.any_eq_false.2 ?_
  intro k hk
  simp only [Bool.not_eq_true]
  simp only [densityKeywords, List.mem_cons, List.not_mem_nil, or_false] at hk
  rcases hk with rfl | rfl | rfl | rfl | rfl | rfl | rfl | rfl | rfl | rfl | rfl | rfl |
    rfl | rfl | rfl | rfl | rfl | rfl
  · exact jsIncludes_filler_false word hchars _ 'r' (by decide) (by decide) (by decide)
  · exact jsIncludes_filler_false word hchars _ 'c' (by decide) (by decide) (by decide)
  · exact jsIncludes_filler_false word hchars _ 'n' (by decide) (by decide) (by decide)
  · exact jsIncludes_filler_false word hchars _ 'n' (by decide) (by decide) (by decide)
  · exact jsIncludes_filler_false word hchars _ 'p' (by decide) (by decide) (by decide)
  · exact jsIncludes_filler_false word hchars _ 'c' (by decide) (by decide) (by decide)
  · exact jsIncludes_filler_false word hchars _ 'f' (by decide) (by decide) (by decide)
  · exact jsIncludes_filler_false word hchars _ 'i' (by decide) (by decide) (by decide)
  · exact jsIncludes_filler_false word hchars _ 'r' (by decide) (by decide) (by decide)
  · exact jsIncludes_filler_false word hchars _ 'c' (by decide) (by decide) (by decide)
  · exact jsIncludes_filler_false word hchars _ 'p' (by decide) (by decide) (by decide)
  · exact jsIncludes_filler_false word hchars _ 's' (by decide) (by decide) (by decide)
  · exact jsIncludes_filler_false word hchars _ 'e' (by decide) (by decide) (by decide)
  · exact jsIncludes_filler_false word hchars _ 'l' (by decide) (by decide) (by decide)
  · exact jsIncludes_filler_false word hchars _ 'a' (by decide) (by decide) (by decide)
  · exact jsIncludes_filler_false word hchars _ 'p' (by decide) (by decide) (by decide)
  · exact jsIncludes_filler_false word hchars _ 'c' (by decide) (by decide) (by decide)
  · exact jsIncludes_filler_false word hchars _ 'i' (by decide) (by decide) (by decide)

/-- The constant chunk is kept in order relative to itself. -/
lemma chunkBefore_M_M : chunkBefore chunkM chunkM := by decide

/-- The dense chunk sorts before the constant chunk (equal densities). -/
lemma chunkBefore_D1_M : chunkBefore chD1 chunkM := by decide

/-- The filler chunk sorts strictly after the constant chunk. -/
lemma not_chunkBefore_filler (n : Nat) : ¬ chunkBefore (chD2 n) chunkM := by
  unfold chunkBefore
  have h1 : (densityCounts chunkM.text).1 = 2 := by
    rw [show chunkM.text = chunkTextM from rfl, densityCounts_chunkTextM]
  have h2 : (densityCounts chunkM.text).2 = 2 := by
    rw [show chunkM.text = chunkTextM from rfl, densityCounts_chunkTextM]
  have h3 : (densityCounts (chD2 n).text).1 = 0 := densityCounts_filler_num n
  have h4 := densityCounts_den_pos (chD2 n).text
  rw [h1, h3]
  omega

/-- Sorting a constant chunk list is the identity. -/
lemma insertionSort_const_chunkM : ∀ k : Nat,
    List.insertionSort chunkBefore (List.replicate k chunkM) =
      List.replicate k chunkM := by
  intro k
  induction k with
  | zero => rfl
  | succ m ih =>
    rw [List.replicate_succ, List.insertionSort, ih]
    cases m with
    | zero => rfl
    | succ m2 =>
      rw [List.replicate_succ, List.orderedInsert, if_pos chunkBefore_M_M]

/-- Inserting an element below everything sends it to the back. -/
lemma orderedInsert_sink (x : TextChunk) : ∀ (l : List TextChunk),
    (∀ y ∈ l, ¬ chunkBefore x y) →
    List.orderedInsert chunkBefore x l = l ++ [x] := by
  intro l
  induction l with
  | nil => intro h; rfl
  | cons b bs ih =>
    intro h
    rw [List.orderedInsert, if_neg (h b (List.mem_cons_self _ _))]
    rw [ih (fun y hy => h y (List.mem_cons_of_mem _ hy))]
    rfl

/-- Accumulated chunks of the 30-document batch: 31 chunks, the filler chunk
in position 2. -/
lemma allChunksOf_docsX :
    allChunksOf cityX docsX = chD1 :: chD2 2092 :: List.replicate 29 chunkM := by
  unfold docsX allChunksOf
  rw [List.flatMap_cons, docChunksOf_zdoc_eq 2092 (by omega)]
  rw [show (List.replicate 29 docMedium).flatMap (docChunksOf cityX) =
    List.replicate 29 chunkM from allChunksOf_replicate_medium 29]
  rfl

/-- The stable sort keeps the dense chunks in place and sinks the filler chunk
to the back. -/
lemma sorted_docsX :
    List.insertionSort chunkBefore (chD1 :: chD2 2092 :: List.replicate 29 chunkM) =
      chD1 :: (List.replicate 29 chunkM ++ [chD2 2092]) := by
  rw [List.insertionSort, List.insertionSort, insertionSort_const_chunkM 29]
  rw [orderedInsert_sink (chD2 2092) _ (fun y hy => by
    rw [List.eq_of_mem_replicate hy]
    exact not_chunkBefore_filler 2092)]
  rw [show List.replicate 29 chunkM ++ [chD2 2092] =
    chunkM :: (List.replicate 28 chunkM ++ [chD2 2092]) from rfl]
  rw [List.orderedInsert, if_pos chunkBefore_D1_M]

/-- Final output of the 30-document batch: the cap fires and drops exactly the
filler chunk, `zdoc`'s chunk 2. -/
lemma chunkDocuments_docsX :
    chunkDocuments cityX docsX = chD1 :: List.replicate 29 chunkM := by
  unfold chunkDocuments
  rw [allChunksOf_docsX]
  rw [if_pos (by simp)]
  rw [sorted_docsX]
  show chD1 :: List.take 29 (List.replicate 29 chunkM ++ [chD2 2092]) =
    chD1 :: List.replicate 29 chunkM
  rw [List.take_left' (by rw [List.length_replicate])]

/-! Claim theorems. -/

/-- C4 counterexample: the Scenario C link is categorized `council`, not
`minutes` as the claim states, because `getCategory` tests `council` first and
the URL contains `council`. -/
theorem C4_counterexample : ¬ (getCategory urlC4 anchorC4 = str "minutes") := by
  decide

/-- C4 (amended): the Scenario C link (url
`https://city.example/council/minutes-2024.pdf`, anchor `2024 Council
Minutes`) is categorized `council` — the first keyword checked by
`getCategory` — and passes the relevance test. -/
theorem C4_amended : getCategory urlC4 anchorC4 = str "council" ∧
    isRelevant urlC4 anchorC4 = true := by
  exact ⟨rfl, rfl⟩

/-- C5 counterexample: the 1000-character document consisting of the repeated
phrase is NOT rejected by `isProceduralBoilerplate`, contradicting the claim:
only 3 patterns match, the estimate is `3 * 50 = 150`, and `150` does not
exceed 30% of 1000. -/
theorem C5_counterexample : textC5long.length = 1000 ∧
    isProceduralBoilerplate textC5long = false := by
  exact ⟨rfl, rfl⟩

/-- C5 (amended): exactly 3 of the 12 boilerplate patterns match the repeated
phrase, so the estimated coverage is the constant 150 and the test rejects
the repeated-phrase document only when it is shorter than 500 characters: the
470-character repetition is rejected, the 1000-character one is accepted. -/
theorem C5_amended :
    (boilerplatePatterns.filter (fun p => regexTest p textC5long)).length = 3 ∧
    textC5short.length = 470 ∧
    isProceduralBoilerplate textC5short = true ∧
    isProceduralBoilerplate textC5long = false := by
  exact ⟨rfl, rfl, rfl, rfl⟩

/-- C7 counterexample: five consecutive content-quality rejections (no fetch
or parse failure anywhere in the list) trip the consecutive-failure threshold
and abort extraction, so the quality sixth page is never extracted — quality
rejections do count toward the counter, contradicting the claim. -/
theorem C7_counterexample :
    extractDocuments cityX (str "2026-10-11") pagesC7 = [] ∧
    isQualityContent rawQuality = true ∧
    pagesC7.countP (fun p => isFetchFailure p.2) = 0 := by
  exact ⟨rfl, rfl, rfl⟩

/-- C7 (amended): in `extractDocuments`, a content-quality rejection behaves
exactly like a thrown fetch/parse failure with respect to the
consecutive-failure counter and the abort threshold of 5, while a robots block
is skipped without touching the counter. -/
theorem C7_amended : ∀ (municipality today url title raw contentType : Str)
    (rest : List (Str × FetchOutcome)) (fails : Nat),
    isQualityContent raw = false →
    (extractGo municipality today ((url, .page title raw contentType) :: rest) fails =
        extractGo municipality today ((url, .failure) :: rest) fails
     ∧ extractGo municipality today ((url, .blocked) :: rest) fails =
        extractGo municipality today rest fails) := by
  intro municipality today url title raw contentType rest fails h
  constructor
  · simp only [extractGo, h, Bool.false_eq_true, if_false]
  · simp only [extractGo]

/-- C7 witness: a concrete quality-rejected page is interchangeable with a
fetch failure at the head of the extraction loop. -/
theorem C7_witness :
    extractGo (str "M") (str "D") [(str "u", .page (str "t") rawShort (str "html"))] 0 =
      extractGo (str "M") (str "D") [(str "u", .failure)] 0 :=
  (C7_amended (str "M") (str "D") (str "u") (str "t") rawShort (str "html") [] 0 rfl).1

/-- C8: the orchestrator's per-municipality state machine: an empty stage
result yields status `skipped` with the matching reason code, a thrown
exception at any stage yields status `error` carrying the message, and the
pipeline processes every municipality independently of the surrounding ones. -/
theorem C8_theorem : ∀ (cityName : Str) (o : CityOutcomes),
    (∀ m, o.discovery = .exn m →
        processCity cityName o = ⟨cityName, .error, none, some m, []⟩)
  ∧ (o.discovery = .ok [] →
        processCity cityName o =
          ⟨cityName, .skipped, some (str "no_urls_discovered"), none, []⟩)
  ∧ (∀ u us, o.discovery = .ok (u :: us) →
      (∀ m, o.extraction = .exn m →
          processCity cityName o = ⟨cityName, .error, none, some m, []⟩)
    ∧ (o.extraction = .ok [] →
          processCity cityName o =
            ⟨cityName, .skipped, some (str "no_documents_extracted"), none, []⟩)
    ∧ (∀ d ds, o.extraction = .ok (d :: ds) →
        (∀ m, o.chunking = .exn m →
            processCity cityName o = ⟨cityName, .error, none, some m, []⟩)
      ∧ (o.chunking = .ok [] →
            processCity cityName o =
              ⟨cityName, .skipped, some (str "no_chunks_created"), none, []⟩)
      ∧ (∀ ch chs, o.chunking = .ok (ch :: chs) →
          (∀ m, o.analysis = .exn m →
              processCity cityName o = ⟨cityName, .error, none, some m, []⟩)
        ∧ (∀ cs, o.analysis = .ok cs →
              processCity cityName o = ⟨cityName, .completed, none, none, cs⟩))))
  ∧ (∀ (pre : List (Str × CityOutcomes)) (c : Str × CityOutcomes)
        (post : List (Str × CityOutcomes)),
        runFullPipeline (pre ++ c :: post) =
          runFullPipeline pre ++ processCity c.1 c.2 :: runFullPipeline post) := by
  intro cityName o
  obtain ⟨d, e, ch, an⟩ := o
  refine ⟨?_, ?_, ?_, ?_⟩
  · intro m hm; cases hm; rfl
  · intro hd; cases hd; rfl
  · intro u us hd
    cases hd
    refine ⟨?_, ?_, ?_⟩
    · intro m hm; cases hm; rfl
    · intro he; cases he; rfl
    · intro dd ds he
      cases he
      refine ⟨?_, ?_, ?_⟩
      · intro m hm; cases hm; rfl
      · intro hc; cases hc; rfl
      · intro cc chs hc
        cases hc
        refine ⟨?_, ?_⟩
        · intro m hm; cases hm; rfl
        · intro cs ha; cases ha; rfl
  · intro pre c post
    simp [runFullPipeline]

/-- C8 witness: a municipality whose discovery stage returns the empty list is
recorded as skipped with reason `no_urls_discovered`. -/
theorem C8_witness :
    processCity (str "A") emptyOutcomes =
      ⟨str "A", .skipped, some (str "no_urls_discovered"), none, []⟩ :=
  (C8_theorem (str "A") emptyOutcomes).2.1 rfl

/-- C9: in the merge variant, the similar-issue filter compares `i.location`
with itself, so grouping is determined by the service field alone, and the
whole merge step coincides with its service-only variant. -/
theorem C9_theorem : ∀ (issues : List Issue) (issue : Issue),
    similarIssues issues issue = similarIssuesByServiceOnly issues issue
  ∧ mergeIssues issues = mergeIssuesByServiceOnly issues := by
  intro issues issue
  exact ⟨similarIssues_eq issues issue, mergeIssuesGo_eq issues issues []⟩

/-- C10: `discoverRelevantPages` always resolves with a deduplicated list —
on the timeout path with the partial results, on a top-level setup error with
the empty list — and an empty discovery result surfaces at the orchestrator as
status `skipped` with reason `no_urls_discovered`, never as status `error`. -/
theorem C10_theorem : ∀ (city : City) (env : CrawlEnv) (fuel : Nat)
    (setupError : Bool) (cityName : Str) (o : CityOutcomes),
    List.Pairwise (fun a b => a.url ≠ b.url)
      (discoverRelevantPages city env fuel setupError)
  ∧ (setupError = true → discoverRelevantPages city env fuel setupError = [])
  ∧ (o.discovery = .ok (discoverRelevantPages city env fuel setupError) →
      discoverRelevantPages city env fuel setupError = [] →
      processCity cityName o =
        ⟨cityName, .skipped, some (str "no_urls_discovered"), none, []⟩) := by
  intro city env fuel setupError cityName o
  refine ⟨?_, ?_, ?_⟩
  · unfold discoverRelevantPages
    by_cases h1 : city.website.isEmpty
    · simp [h1]
    · by_cases h2 : setupError
      · simp [h1, h2]
      · simp only [h1, h2, Bool.false_eq_true, if_false, if_neg]
        exact uniqueResults_pairwise _
  · intro h2
    unfold discoverRelevantPages
    by_cases h1 : city.website.isEmpty
    · simp [h1]
    · simp [h1, h2]
  · intro hd hnil
    rw [hnil] at hd
    exact (C8_theorem cityName o).2.1 hd

/-- C10 witness: a crawl whose every fetch fails discovers nothing, and the
orchestrator records the municipality as skipped with reason
`no_urls_discovered`. -/
theorem C10_witness :
    processCity (str "A")
      ⟨.ok (discoverRelevantPages cityX envNone 5 false), .ok [], .ok [], .ok []⟩ =
      ⟨str "A", .skipped, some (str "no_urls_discovered"), none, []⟩ :=
  (C10_theorem cityX envNone 5 false (str "A")
    ⟨.ok (discoverRelevantPages cityX envNone 5 false), .ok [], .ok [], .ok []⟩).2.2 rfl rfl


/-- C6: a document whose raw text is under 300 characters never contributes a
chunk to the Chunker's output: the narrowing passes can only shrink the text,
so the final minimum-content gate rejects it, and deleting all such documents
from the batch leaves `chunkDocuments` unchanged. -/
theorem C6_theorem : ∀ (city : City) (doc : ExtractedDoc) (docs : List ExtractedDoc),
    (doc.raw_text.length < 300 → docChunksOf city doc = [])
  ∧ chunkDocuments city docs =
      chunkDocuments city (docs.filter (fun d => decide (300 ≤ d.raw_text.length))) := by
  intro city doc docs
  constructor
  · exact docChunksOf_eq_nil_of_short city doc
  · unfold chunkDocuments
    rw [← allChunksOf_filter_short]

/-- C6 witness: the concrete 5-character document contributes no chunks. -/
theorem C6_witness : docChunksOf cityX docShort = [] :=
  (C6_theorem cityX docShort []).1 (by decide)

/-- C2 counterexample: when the per-city cap fires, a document's chunks can be
dropped individually, leaving the surviving index set with gaps.  In the
30-document batch `docsX`, `zdoc 2092` contributes chunks 1 and 2 of 2, but
only chunk 1 survives the cap: the output's index/total pairs for title `d1`
are exactly `[(1, 2)]`, not `{1, 2}`. -/
theorem C2_counterexample :
    ((chunkDocuments cityX docsX).filter
        (fun c => decide (c.title = str "d1"))).map
      (fun c => (c.chunk_index, c.total_chunks)) = [(1, 2)] := by
  rw [chunkDocuments_docsX, List.filter_cons, if_pos (by decide)]
  have hrep : (List.replicate 29 chunkM).filter
      (fun c => decide (c.title = str "d1")) = [] := by
    refine List.filter_eq_nil_iff.2 ?_
    intro a ha
    rw [List.eq_of_mem_replicate ha]
    decide
  rw [hrep]
  rfl

/-- C2 (amended): every output chunk satisfies
`1 ≤ chunk_index ≤ total_chunks`; within a single document the chunk indices
are exactly `1, …, total_chunks` with the shared total; and whenever at most
30 chunks accumulate (so the per-city cap does not fire), the final output is
exactly the accumulated chunk list, so each contributing document's index set
is exactly `{1, …, total_chunks}`.  (When the cap fires, chunks of a document
can be dropped individually, so the index set of a contributing document may
have gaps — see the counterexample.) -/
theorem C2_amended : ∀ (city : City) (docs : List ExtractedDoc),
    (∀ c ∈ chunkDocuments city docs, 1 ≤ c.chunk_index ∧ c.chunk_index ≤ c.total_chunks)
  ∧ (∀ doc : ExtractedDoc,
      (docChunksOf city doc).map (fun c => c.chunk_index) =
        List.range' 1 (docChunksOf city doc).length
    ∧ ∀ c ∈ docChunksOf city doc, c.total_chunks = (docChunksOf city doc).length)
  ∧ ((allChunksOf city docs).length ≤ 30 →
      chunkDocuments city docs = allChunksOf city docs) := by
  intro city docs
  refine ⟨?_, ?_, ?_⟩
  · intro c hc
    have hall := chunkDocuments_subset city docs c hc
    obtain ⟨doc, _, hdoc⟩ := List.mem_flatMap.1 hall
    rcases docChunksOf_eq city doc with hnil | heq
    · rw [hnil] at hdoc; cases hdoc
    · rw [heq] at hdoc
      obtain ⟨_, hge, hlt, _⟩ := numberChunks_mem _ _ _ _ _ _ c hdoc
      obtain ⟨ht, _, _, _⟩ := numberChunks_mem _ _ _ _ _ _ c hdoc
      omega
  · intro doc
    rcases docChunksOf_eq city doc with hnil | heq
    · rw [hnil]; exact ⟨rfl, fun c hc => absurd hc (List.not_mem_nil c)⟩
    · rw [heq]
      constructor
      · rw [numberChunks_map_index, numberChunks_length]
      · intro c hc
        obtain ⟨ht, _, _, _⟩ := numberChunks_mem _ _ _ _ _ _ c hc
        rw [ht, numberChunks_length]
  · intro h
    unfold chunkDocuments
    rw [if_neg (by omega)]

/-- C2 amended witness: with a single document (one accumulated chunk) the
output is exactly the accumulated list. -/
theorem C2_amended_witness :
    chunkDocuments cityX [docMedium] = allChunksOf cityX [docMedium] :=
  (C2_amended cityX [docMedium]).2.2 (by decide)

/-- C1 counterexample: a single 5999-character sentence becomes a chunk of
6000 characters, exceeding 2400 even with a 2400-character overshoot
allowance — the "small overshoot" bound of the claim does not hold. -/
theorem C1_counterexample :
    ∃ c ∈ chunkDocuments cityX [zdoc 5999], 2400 + 2400 < c.text.length := by
  have hall : allChunksOf cityX [zdoc 5999] = [chD1, chD2 5999] := by
    unfold allChunksOf
    rw [List.flatMap_cons, List.flatMap_nil, docChunksOf_zdoc_eq 5999 (by omega),
      List.append_nil]
  have hout : chunkDocuments cityX [zdoc 5999] = [chD1, chD2 5999] := by
    unfold chunkDocuments
    rw [hall, if_neg (by simp)]
  refine ⟨chD2 5999, ?_, ?_⟩
  · rw [hout]
    exact List.mem_cons_of_mem _ (List.mem_cons_self _ _)
  · show 2400 + 2400 < (zfill 5999 ++ [ '.' ]).length
    rw [List.length_append, zfill_length]
    simp

/-- C1 (amended): every chunk of `chunkDocuments` is strictly longer than 100
characters, and its length is bounded by the larger of 2400 and the longest
trimmed sentence of its document's narrowed text plus one — the boundary check
happens before a sentence is appended, so no chunk overshoots 2400 by
appending, but a single sentence longer than the limit becomes a chunk of its
own length, which is not bounded by 2400 plus any fixed small allowance. -/
theorem C1_amended : ∀ (city : City) (docs : List ExtractedDoc) (c : TextChunk),
    c ∈ chunkDocuments city docs →
    100 < c.text.length ∧
    ∃ doc ∈ docs,
      c.text.length ≤ max 2400 (maxSentencePlusOne (filteredTextOf doc)) := by
  intro city docs c hc
  have hall := chunkDocuments_subset city docs c hc
  obtain ⟨doc, hdocs, hdoc⟩ := List.mem_flatMap.1 hall
  rcases docChunksOf_eq city doc with hnil | heq
  · rw [hnil] at hdoc; cases hdoc
  · rw [heq] at hdoc
    obtain ⟨_, _, _, htext⟩ := numberChunks_mem _ _ _ _ _ _ c hdoc
    obtain ⟨hgt, hle⟩ := splitIntoChunks_bounds (filteredTextOf doc) 2400 c.text htext
    exact ⟨hgt, doc, hdocs, hle⟩

/-- C1 amended witness: the concrete chunk of `docMedium` is longer than 100
characters. -/
theorem C1_amended_witness : 100 < chunkM.text.length :=
  (C1_amended cityX [docMedium] chunkM (by decide)).1

/-- C3: the output of `chunkDocuments` never exceeds 30 chunks; when more than
30 chunks accumulate, exactly 30 survive, they form a sub-multiset of the
accumulated chunks (so each surviving chunk keeps its original source_url,
chunk_index and total_chunks fields), and every surviving chunk's keyword
density is at least that of every discarded chunk. -/
theorem C3_theorem : ∀ (city : City) (docs : List ExtractedDoc),
    (chunkDocuments city docs).length ≤ 30
  ∧ (30 < (allChunksOf city docs).length →
      (chunkDocuments city docs).length = 30
    ∧ (chunkDocuments city docs).Subperm (allChunksOf city docs)
    ∧ (∀ c ∈ chunkDocuments city docs, c ∈ allChunksOf city docs)
    ∧ ∀ kept ∈ chunkDocuments city docs,
        ∀ dropped ∈ (List.insertionSort chunkBefore (allChunksOf city docs)).drop 30,
          calculateKeywordDensity dropped.text ≤ calculateKeywordDensity kept.text) := by
  intro city docs
  have hperm := List.perm_insertionSort chunkBefore (allChunksOf city docs)
  have hlen : (List.insertionSort chunkBefore (allChunksOf city docs)).length =
      (allChunksOf city docs).length := hperm.length_eq
  constructor
  · unfold chunkDocuments
    by_cases h : 30 < (allChunksOf city docs).length
    · rw [if_pos h, List.length_take, hlen]
      omega
    · rw [if_neg h]
      omega
  · intro h
    have hout : chunkDocuments city docs =
        (List.insertionSort chunkBefore (allChunksOf city docs)).take 30 := by
      unfold chunkDocuments
      rw [if_pos h]
    refine ⟨?_, ?_, ?_, ?_⟩
    · rw [hout, List.length_take, hlen]
      omega
    · rw [hout]
      exact (List.take_sublist _ _).subperm.trans hperm.subperm
    · intro c hc
      exact chunkDocuments_subset city docs c hc
    · intro kept hkept dropped hdropped
      have hsorted : List.Sorted chunkBefore
          (List.insertionSort chunkBefore (allChunksOf city docs)) :=
        List.sorted_insertionSort chunkBefore _
      rw [hout] at hkept
      exact (chunkBefore_iff kept dropped).1
        (hsorted.rel_of_mem_take_of_mem_drop hkept hdropped)

/-- C3 witness: a 31-document batch of identical single-chunk documents
accumulates 31 chunks, and the returned list has exactly 30. -/
theorem C3_witness : (chunkDocuments cityX docsY).length = 30 := by
  have hm : (docChunksOf cityX docMedium).length = 1 := by decide
  have h31 : (allChunksOf cityX docsY).length = 31 := by
    have := allChunksOf_replicate cityX docMedium 31
    unfold docsY
    omega
  exact ((C3_theorem cityX docsY).2 (by omega)).1

end TrueNorth
